import Mathlib

/-!
Verification of the Notion course-export application (src/app.py) against its
natural-language specification.  Python strings are modelled as `List Char`,
Python dicts that preserve insertion order as association lists, Python sets
as `Finset`, machine I/O (the Notion client) as explicit oracle parameters,
and Python exceptions as `Except` values.  All definitions are translated
from the source file `app.py`; the line numbers in the doc comments refer to
that file.
-/

set_option maxRecDepth 10000

/-- Characters treated as whitespace by Python's str.strip / regex class
backslash-s (space, tab, newline, carriage return, vertical tab, form feed). -/
def isPySpace (c : Char) : Bool :=
  c = ' ' || c = '\t' || c = '\n' || c = '\r' || c = Char.ofNat 11 || c = Char.ofNat 12

/-- The backtick character (used by the fenced-code-block regex in app.py). -/
def btickChar : Char := Char.ofNat 96

/-- Python str.lstrip (with default whitespace argument). -/
def lstripPy (l : List Char) : List Char := l.dropWhile isPySpace

/-- Python str.rstrip (with default whitespace argument). -/
def rstripPy (l : List Char) : List Char := (l.reverse.dropWhile isPySpace).reverse

/-- Python str.strip (with default whitespace argument). -/
def stripPy (l : List Char) : List Char := lstripPy (rstripPy l)

/-- Helper for `splitlinesPy`: accumulates the current line (reversed). -/
def splitlinesAux : List Char → List Char → List (List Char)
  | [], acc => if acc = [] then [] else [acc.reverse]
  | c :: rest, acc =>
      if c = '\n' then acc.reverse :: splitlinesAux rest []
      else splitlinesAux rest (c :: acc)

/-- Python str.splitlines, for strings whose only line terminator is the
newline character (the only terminator the pipeline in app.py produces:
`blocks_to_md` joins lines with a bare newline). -/
def splitlinesPy (l : List Char) : List (List Char) := splitlinesAux l []

/-- Join a list of lines with newline characters (Python's newline join). -/
def joinNL (ls : List (List Char)) : List Char := List.intercalate ['\n'] ls

/-- Decimal rendering of a counter value, as Python string formatting does. -/
def natLit (n : Nat) : List Char := (Nat.repr n).data

-- ───────────────────────────────────────────────────────────────────────────
-- fix_numbered_lists (app.py lines 481-510)
-- ───────────────────────────────────────────────────────────────────────────

/-- Match of the regex `caret (backslash-s star) (backslash-d plus) dot
backslash-s plus (dot star) dollar` from app.py line 486: an optional run of
whitespace, at least one digit, a literal dot, at least one whitespace
character, then the rest of the line.  Returns the indent string and the
content (group 3); the numeral itself is discarded by the rewrite. -/
def numParse (l : List Char) : Option (List Char × List Char) :=
  let ws := l.takeWhile isPySpace
  let r1 := l.dropWhile isPySpace
  let ds := r1.takeWhile Char.isDigit
  let r2 := r1.dropWhile Char.isDigit
  if ds = [] then none
  else
    match r2 with
    | '.' :: r3 =>
        if r3.takeWhile isPySpace = [] then none
        else some (ws, r3.dropWhile isPySpace)
    | _ => none

/-- Match of the fence regex from app.py line 485: optional whitespace then
three backticks. -/
def fenceMatch (l : List Char) : Bool :=
  (l.dropWhile isPySpace).take 3 = [btickChar, btickChar, btickChar]

/-- Scanner state of `fix_numbered_lists`: the in-fenced-code flag, the
per-indentation counters dict, and the active list indent. -/
structure NumSt where
  inCode : Bool
  counters : List (Nat × Nat)
  active : Option Nat
deriving DecidableEq, Repr

/-- Initial scanner state of `fix_numbered_lists`. -/
def numSt0 : NumSt := ⟨false, [], none⟩

/-- Dict lookup with default (Python dict.get(k, d)). -/
def lookupD (m : List (Nat × Nat)) (k : Nat) (d : Nat) : Nat :=
  match m.find? (fun p => p.1 = k) with
  | some p => p.2
  | none => d

/-- Dict assignment m[k] = v preserving insertion order of other keys. -/
def setAssoc (m : List (Nat × Nat)) (k v : Nat) : List (Nat × Nat) :=
  match m with
  | [] => [(k, v)]
  | p :: rest => if p.1 = k then (k, v) :: rest else p :: setAssoc rest k v

/-- One iteration of the `for line in lines` loop of `fix_numbered_lists`
(app.py lines 490-508), returning the new state and the output line. -/
def numStep (st : NumSt) (line : List Char) : NumSt × List Char :=
  if fenceMatch line then ({ st with inCode := !st.inCode }, line)
  else if st.inCode then (st, line)
  else
    match numParse line with
    | some (ind, content) =>
        let d := ind.length
        if st.active = some d then
          let n := lookupD st.counters d 0 + 1
          ({ st with counters := setAssoc st.counters d n },
           ind ++ natLit n ++ '.' :: ' ' :: content)
        else
          let cs := st.counters.filter (fun p => p.1 < d)
          ({ inCode := st.inCode, counters := setAssoc cs d 1, active := some d },
           ind ++ natLit 1 ++ '.' :: ' ' :: content)
    | none => ({ st with active := none }, line)

/-- The full line scan of `fix_numbered_lists`: threads the state through the
lines and collects the rewritten output lines. -/
def numScan (st : NumSt) : List (List Char) → NumSt × List (List Char)
  | [] => (st, [])
  | l :: ls =>
      let p := numStep st l
      let q := numScan p.1 ls
      (q.1, p.2 :: q.2)

/-- app.py lines 481-510: `fix_numbered_lists(md)` — split into lines, rewrite
the numerals of numbered-list lines, join with newlines and strip. -/
def fix_numbered_lists (md : List Char) : List Char :=
  stripPy (joinNL (numScan numSt0 (splitlinesPy md)).2)

/-- Rewrites one numbered-list line to carry numeral n, as the scanner's
output expression f-string does; non-matching lines are left alone. -/
def renumLine (l : List Char) (n : Nat) : List Char :=
  match numParse l with
  | some (ind, content) => ind ++ natLit n ++ '.' :: ' ' :: content
  | none => l

-- ───────────────────────────────────────────────────────────────────────────
-- Section extractor (app.py lines 437-479)
-- ───────────────────────────────────────────────────────────────────────────

/-- Model of Python `unicodedata.normalize("NFKD", s) .encode("ascii",
"ignore")` restricted to one character: ASCII characters are kept, the
accented Latin letters occurring in this application's Hungarian vocabulary
decompose to their base letter (the combining accent being dropped by the
ascii/ignore encode), and every other non-ASCII character is dropped. -/
def asciiFoldChar (c : Char) : Option Char :=
  if c.toNat < 128 then some c
  else if c = 'á' then some 'a'
  else if c = 'é' then some 'e'
  else if c = 'í' then some 'i'
  else if c = 'ó' then some 'o'
  else if c = 'ö' then some 'o'
  else if c = 'ő' then some 'o'
  else if c = 'ú' then some 'u'
  else if c = 'ü' then some 'u'
  else if c = 'ű' then some 'u'
  else if c = 'Á' then some 'A'
  else if c = 'É' then some 'E'
  else if c = 'Í' then some 'I'
  else if c = 'Ó' then some 'O'
  else if c = 'Ö' then some 'O'
  else if c = 'Ő' then some 'O'
  else if c = 'Ú' then some 'U'
  else if c = 'Ü' then some 'U'
  else if c = 'Ű' then some 'U'
  else none

/-- app.py lines 453-458: `_normalize(s)` — accent folding, strip, lowercase,
and removal of space, underscore, hyphen, dot and colon. -/
def normalizePy (l : List Char) : List Char :=
  let folded := l.filterMap asciiFoldChar
  let lowered := (stripPy folded).map Char.toLower
  lowered.filter (fun c => !(c = ' ' || c = '_' || c = '-' || c = '.' || c = ':'))

/-- Heading-keyed section map: Python dict preserving key insertion order. -/
abbrev SectAssoc := List (List Char × List (List Char))

/-- Python `sections[current] = []`: reset the value at a key, keeping the
key's original position if it already exists, appending it otherwise. -/
def upsertReset (m : SectAssoc) (k : List Char) : SectAssoc :=
  match m with
  | [] => [(k, [])]
  | p :: rest => if p.1 = k then (k, []) :: rest else p :: upsertReset rest k

/-- Python `sections[current].append(ln)`. -/
def appendAt (m : SectAssoc) (k : List Char) (ln : List Char) : SectAssoc :=
  match m with
  | [] => []
  | p :: rest => if p.1 = k then (p.1, p.2 ++ [ln]) :: rest else p :: appendAt rest k ln

/-- One iteration of the loop of `_split_h2_sections` (app.py lines 440-447). -/
def splitH2Step (st : Option (List Char) × SectAssoc) (ln : List Char) :
    Option (List Char) × SectAssoc :=
  if ln.take 3 = ['#', '#', ' '] then
    let k := stripPy (ln.drop 3)
    (some k, upsertReset st.2 k)
  else
    match st.1 with
    | some k => (st.1, appendAt st.2 k ln)
    | none => st

/-- app.py lines 437-448: `_split_h2_sections(md)`. -/
def split_h2_sections (md : List Char) : SectAssoc :=
  ((splitlinesPy md).foldl splitH2Step (none, [])).2

/-- app.py lines 450-451: `_join(lines)` is newline-join followed by strip;
the extractor strips the result once more, which is idempotent. -/
def joinStripPy (v : List (List Char)) : List Char := stripPy (joinNL v)

/-- The inner loop of `pick` in `select_video_or_lesson_with_type` (app.py
lines 464-471): first section whose normalized heading is among the targets
and whose joined, stripped body is non-empty. -/
def pickAux (targets : List (List Char)) : SectAssoc → Option (List Char)
  | [] => none
  | (k, v) :: rest =>
      if targets.contains (normalizePy k) && !(joinStripPy v).isEmpty then
        some (joinStripPy v)
      else pickAux targets rest

/-- Video-heading synonym list (app.py line 473). -/
def videoVariants : List (List Char) :=
  ["Videó szöveg", "Video szoveg", "Video szöveg", "Videó szoveg", "Videó", "Video"].map
    String.data

/-- Lesson-heading synonym list (app.py line 476). -/
def lessonVariants : List (List Char) :=
  ["Lecke szöveg", "Lecke szoveg", "Lecke", "Lecke anyag"].map String.data

/-- app.py lines 460-479: `select_video_or_lesson_with_type(md)`. -/
def select_video_or_lesson_with_type (md : List Char) : List Char × Option String :=
  let sections := split_h2_sections md
  match pickAux (videoVariants.map normalizePy) sections with
  | some body => (body, some "video_szoveg")
  | none =>
      match pickAux (lessonVariants.map normalizePy) sections with
      | some body => (body, some "lecke_szoveg")
      | none => ([], none)

-- ───────────────────────────────────────────────────────────────────────────
-- Cell splitter (app.py lines 554-579)
-- ───────────────────────────────────────────────────────────────────────────

/-- Python `window.rfind(nn)` where nn is two newline characters: the largest
index at which it occurs, if any (the Python -1 result is `none`). -/
def rfindNN (l : List Char) : Option Nat :=
  (List.range l.length).reverse.find? (fun i => (l.drop i).take 2 = ['\n', '\n'])

/-- The cut position (relative to the window start) chosen by one iteration
of the `_split_content_for_csv` loop: the rfind result if it clears the 60%
threshold, else the hard window end.  The `int(max_len * 0.6)` threshold is
modelled as natural division maxLen * 6 / 10, which coincides with the Python
float expression at the configured maxLen = 40000. -/
def chunkEnd (maxLen : Nat) (rem : List Char) : Nat :=
  match rfindNN (rem.take maxLen) with
  | some cut => if cut ≥ maxLen * 6 / 10 then cut else min maxLen rem.length
  | none => min maxLen rem.length

/-- The while loop of `_split_content_for_csv` (app.py lines 562-571), acting
on the remaining suffix of the text.  The `chunkEnd = 0` guard is unreachable
for maxLen of at least 2 (Python would loop forever there). -/
def splitChunks (maxLen : Nat) (rem : List Char) : List (List Char) :=
  if hrem : rem = [] then []
  else
    if hend : chunkEnd maxLen rem = 0 then []
    else
      let part := rstripPy (rem.take (chunkEnd maxLen rem))
      let rest := splitChunks maxLen (rem.drop (chunkEnd maxLen rem))
      if part = [] then rest else part :: rest
termination_by rem.length
decreasing_by
  simp only [List.length_drop]
  have h1 : 0 < rem.length := List.length_pos.mpr hrem
  omega

/-- app.py lines 554-579: `_split_content_for_csv(text, max_len)` as the
ordered field list (field name, field value).  The first chunk is `tartalom`,
the i-th continuation `tartalom_cont_i`. -/
def split_content_for_csv (text : List Char) (maxLen : Nat) : List (String × List Char) :=
  if text.length ≤ maxLen then [("tartalom", text)]
  else
    (splitChunks maxLen text).mapIdx fun i p =>
      (if i = 0 then "tartalom" else "tartalom_cont_" ++ Nat.repr i, p)

-- ───────────────────────────────────────────────────────────────────────────
-- Retry wrappers (app.py lines 120-129, 709-739, 858-876)
-- ───────────────────────────────────────────────────────────────────────────

/-- Python exceptions seen by the retry wrappers: `APIResponseError` carrying
an optional HTTP-ish status (`getattr(e, "status", None)`), or any other
exception. -/
inductive PyErr where
  | api (status : Option Nat)
  | other
deriving DecidableEq, Repr

/-- The status tuple `(429, 500, 502, 503)` used by all three wrappers. -/
def retrySet : List Nat := [429, 500, 502, 503]

/-- Python `status in (429, 500, 502, 503)` for an optional status. -/
def statusRetryable : Option Nat → Bool
  | some s => retrySet.contains s
  | none => false

/-- The `for i in range(6)` loop of `with_backoff` (app.py lines 120-129).
The callee is an oracle giving the outcome of each attempt; the second
component records the `time.sleep` durations (seconds, as exact rationals
standing for the float `2 ** i + 0.1`).  Falling off the loop (all six
attempts failed retryably) returns Python's implicit None, modelled `ok
none`. -/
def backoffAux {α : Type} (f : Nat → Except PyErr α) :
    Nat → Nat → Except PyErr (Option α) × List ℚ
  | 0, _ => (.ok none, [])
  | fuel + 1, i =>
      match f i with
      | .ok v => (.ok (some v), [])
      | .error (.api st) =>
          if statusRetryable st then
            let r := backoffAux f fuel (i + 1)
            (r.1, ((2 : ℚ) ^ i + 1 / 10) :: r.2)
          else (.error (.api st), [])
      | .error .other => (.error .other, [])

/-- app.py lines 120-129: `with_backoff(fn)`.  Only `APIResponseError` with a
status in `retrySet` is retried; every other exception propagates at once. -/
def with_backoff {α : Type} (f : Nat → Except PyErr α) : Except PyErr (Option α) × List ℚ :=
  backoffAux f 6 0

/-- The attempt loop of `_retry_build_rows` (app.py lines 709-739): oracle
`b k` gives attempt k's outcome (k zero-based; Python's `attempt` is k+1).
Returns ((rows, retry count), sleep durations).  A non-retryable
`APIResponseError` breaks out early without sleeping; a generic exception is
retried; exhaustion yields the empty row list with retry count maxTries-1. -/
def retryBuildAux {ρ : Type} (b : Nat → Except PyErr (List ρ)) (maxTries : Nat) :
    Nat → Nat → (List ρ × Nat) × List ℚ
  | 0, _ => (([], maxTries - 1), [])
  | fuel + 1, k =>
      match b k with
      | .ok rows => ((rows, k), [])
      | .error (.api st) =>
          if statusRetryable st then
            let r := retryBuildAux b maxTries fuel (k + 1)
            (r.1, ((2 : ℚ) ^ k) :: r.2)
          else (([], maxTries - 1), [])
      | .error .other =>
          let r := retryBuildAux b maxTries fuel (k + 1)
          (r.1, ((2 : ℚ) ^ k) :: r.2)

/-- app.py lines 709-739: `_retry_build_rows` with its default max_tries=3. -/
def retry_build_rows {ρ : Type} (b : Nat → Except PyErr (List ρ)) : (List ρ × Nat) × List ℚ :=
  retryBuildAux b 3 3 0

/-- The attempt loop of `_retry_export_one` (app.py lines 858-876), same
retry policy as `_retry_build_rows`; failure yields `none` (Python None). -/
def retryExportAux {β : Type} (e : Nat → Except PyErr β) (maxTries : Nat) :
    Nat → Nat → (Option β × Nat) × List ℚ
  | 0, _ => ((none, maxTries - 1), [])
  | fuel + 1, k =>
      match e k with
      | .ok v => ((some v, k), [])
      | .error (.api st) =>
          if statusRetryable st then
            let r := retryExportAux e maxTries fuel (k + 1)
            (r.1, ((2 : ℚ) ^ k) :: r.2)
          else ((none, maxTries - 1), [])
      | .error .other =>
          let r := retryExportAux e maxTries fuel (k + 1)
          (r.1, ((2 : ℚ) ^ k) :: r.2)

/-- app.py lines 858-876: `_retry_export_one` with its default max_tries=3. -/
def retry_export_one {β : Type} (e : Nat → Except PyErr β) : (Option β × Nat) × List ℚ :=
  retryExportAux e 3 3 0

-- ───────────────────────────────────────────────────────────────────────────
-- Generic Python orderings and stable sort
-- ───────────────────────────────────────────────────────────────────────────

/-- Python string comparison: lexicographic on code points. -/
def charListLe : List Char → List Char → Bool
  | [], _ => true
  | _ :: _, [] => false
  | a :: as, b :: bs =>
      if a.toNat < b.toNat then true
      else if a.toNat = b.toNat then charListLe as bs
      else false

/-- Python string less-or-equal. -/
def pyStrLe (s t : String) : Bool := charListLe s.data t.data

/-- Stable insertion into a sorted list: the new element goes after every
existing element that compares less-or-equal, as Python's stable sort puts
later-arriving equal keys after earlier ones. -/
def insertLe {α : Type} (le : α → α → Bool) (x : α) : List α → List α
  | [] => [x]
  | y :: ys => if le y x then y :: insertLe le x ys else x :: y :: ys

/-- Stable sort (model of Python `sorted` / `list.sort` with a key). -/
def pySortBy {α : Type} (le : α → α → Bool) (l : List α) : List α :=
  l.foldl (fun acc x => insertLe le x acc) []

/-- Python's lowercase for the characters of this application (ASCII plus the
accented Hungarian capitals). -/
def pyLowerChar (c : Char) : Char :=
  if c.toNat < 128 then c.toLower
  else if c = 'Á' then 'á'
  else if c = 'É' then 'é'
  else if c = 'Í' then 'í'
  else if c = 'Ó' then 'ó'
  else if c = 'Ö' then 'ö'
  else if c = 'Ő' then 'ő'
  else if c = 'Ú' then 'ú'
  else if c = 'Ü' then 'ü'
  else if c = 'Ű' then 'ű'
  else c

/-- Python str.lower on a whole string. -/
def pyLowerStr (s : String) : String := String.mk (s.data.map pyLowerChar)

-- ───────────────────────────────────────────────────────────────────────────
-- Group index builder (app.py lines 54-57 and 219-244)
-- ───────────────────────────────────────────────────────────────────────────

/-- app.py lines 54-57: the static alias table DISPLAY_RENAMES. -/
def DISPLAY_RENAMES : List (String × String) :=
  [("Üzleti Modellek", "Milyen vállalkozást indíts"),
   ("Marketing rendszerek", "Ügyfélszerző marketing rendszerek")]

/-- Python `DISPLAY_RENAMES.get(current_name, current_name)`. -/
def displayRename (name : String) : String :=
  match DISPLAY_RENAMES.find? (fun p => p.1 = name) with
  | some p => p.2
  | none => name

/-- app.py lines 224-226: the reverse alias map; the historical names whose
rename target is the given display name. -/
def reverseAlias (newName : String) : Finset String :=
  ((DISPLAY_RENAMES.filter (fun p => p.2 = newName)).map (fun p => p.1)).toFinset

/-- app.py line 231: the orphan placeholder f-string for an option id absent
from the live schema with no observed names. -/
def orphanName (oid : String) : String :=
  String.mk ("(árva ".data ++ oid.data.take 6 ++ "...".data)

/-- app.py line 231: current name resolution.  Python `x or y` falls through
on the empty string as well as on None. -/
def currentNameOf (names_seen : String → List String) (id2current : String → Option String)
    (oid : String) : String :=
  let fallback :=
    match pySortBy pyStrLe (names_seen oid) with
    | [] => orphanName oid
    | c :: _ => c
  match id2current oid with
  | some s => if s = "" then fallback else s
  | none => fallback

/-- app.py lines 232-233: the display name and canonical-name set contributed
by one option id.  Python sets are modelled as Finset. -/
def displayEntry (names_seen : String → List String) (id2current : String → Option String)
    (oid : String) : String × Finset String :=
  let current := currentNameOf names_seen id2current oid
  let display := displayRename current
  (display, insert current ((names_seen oid).toFinset ∪ reverseAlias display))

/-- app.py lines 234-236: `display_items.setdefault` followed by count sum and
canon union, keeping dict insertion order. -/
def upsertMerge (m : List (String × Nat × Finset String)) (k : String) (cnt : Nat)
    (canon : Finset String) : List (String × Nat × Finset String) :=
  match m with
  | [] => [(k, cnt, canon)]
  | p :: rest =>
      if p.1 = k then (k, p.2.1 + cnt, p.2.2 ∪ canon) :: rest
      else p :: upsertMerge rest k cnt canon

/-- app.py lines 219-244: `build_display_list`.  The page scan and schema
fetch are supplied as inputs: `used` is the insertion-ordered (option id,
page count) list from `collect_used_ids_and_names`, `names_seen` the names
observed per option id, `id2current` the live-schema name per option id. -/
def build_display_list (used : List (String × Nat)) (names_seen : String → List String)
    (id2current : String → Option String) : List (String × Nat × Finset String) :=
  let items := used.foldl
    (fun acc p =>
      let e := displayEntry names_seen id2current p.1
      upsertMerge acc e.1 p.2 e.2) []
  pySortBy (fun a b => pyStrLe (pyLowerStr a.1) (pyLowerStr b.1)) items

/-- The display name an option id resolves to (app.py line 232). -/
def displayOf (names_seen : String → List String) (id2current : String → Option String)
    (oid : String) : String :=
  displayRename (currentNameOf names_seen id2current oid)

/-- The total page count of all option ids resolving to one display name:
what the claim calls the sum of the merged counts. -/
def sumForDisplay (names_seen : String → List String) (id2current : String → Option String)
    (used : List (String × Nat)) (d : String) : Nat :=
  ((used.filter (fun p => displayOf names_seen id2current p.1 = d)).map (fun p => p.2)).sum

/-- The dict-building fold of `build_display_list` from an arbitrary starting
association list. -/
def bdlFold (names_seen : String → List String) (id2current : String → Option String)
    (used : List (String × Nat)) (acc : List (String × Nat × Finset String)) :
    List (String × Nat × Finset String) :=
  used.foldl
    (fun a p =>
      let e := displayEntry names_seen id2current p.1
      upsertMerge a e.1 p.2 e.2) acc

-- ───────────────────────────────────────────────────────────────────────────
-- Content linearizer (app.py lines 170-180 and 255-311)
-- ───────────────────────────────────────────────────────────────────────────

/-- One rich text span: plain text plus the annotation flags the code reads. -/
structure RichSpan where
  plainText : List Char
  bold : Bool
  italic : Bool
  code : Bool
  strikethrough : Bool
deriving DecidableEq, Repr

/-- app.py lines 170-180: `format_rich_text` — markdown wrappers applied in
the source's order: code innermost, then bold, italic, strikethrough. -/
def format_rich_text (spans : List RichSpan) : List Char :=
  (spans.map fun r =>
    let t0 := r.plainText
    let t1 := if r.code then btickChar :: t0 ++ [btickChar] else t0
    let t2 := if r.bold then '*' :: '*' :: t1 ++ ['*', '*'] else t1
    let t3 := if r.italic then '*' :: t2 ++ ['*'] else t2
    if r.strikethrough then '~' :: '~' :: t3 ++ ['~', '~'] else t3).flatten

/-- A content block: type tag, rich text payload, to-do checked flag, code
language, and children.  The Notion has_children flag corresponds to a
non-empty children list. -/
inductive Block where
  | mk (btype : String) (richText : List RichSpan) (checked : Bool)
       (language : List Char) (children : List Block)

/-- The block types rendered through the prefix table (app.py lines 268-272). -/
def textBlockTypes : List String :=
  ["paragraph", "heading_1", "heading_2", "heading_3",
   "bulleted_list_item", "numbered_list_item", "quote", "to_do", "callout", "toggle"]

/-- The single line a block contributes (app.py lines 264-299); empty when the
block type is unrecognized.  Code blocks are rendered unindented, exactly as
the f-string on line 296 does. -/
def blockLine (depth : Nat) (btype : String) (rich : List RichSpan) (checked : Bool)
    (language : List Char) : List Char :=
  let indent := List.replicate (2 * depth) ' '
  if textBlockTypes.contains btype then
    let txt := format_rich_text rich
    let pfx : List Char :=
      if btype = "heading_1" then "# ".data
      else if btype = "heading_2" then "## ".data
      else if btype = "heading_3" then "### ".data
      else if btype = "bulleted_list_item" then "- ".data
      else if btype = "numbered_list_item" then "1. ".data
      else if btype = "quote" then "> ".data
      else if btype = "to_do" then "- [".data ++ [if checked then 'x' else ' '] ++ "] ".data
      else if btype = "callout" then "> ".data
      else if btype = "toggle" then "▸ ".data
      else []
    indent ++ pfx ++ txt
  else if btype = "code" then
    let lang := stripPy language
    let content := (rich.map RichSpan.plainText).flatten
    [btickChar, btickChar, btickChar] ++ lang ++ '\n' :: content ++
      '\n' :: [btickChar, btickChar, btickChar]
  else if btype = "divider" then "---".data
  else []

/-- The lines collected by the `for block in resp` loop of `blocks_to_md`
(app.py lines 263-305): the block's own line if non-empty, then — if the
block has children — the joined, stripped recursive rendering appended as one
(possibly empty) element. -/
def blocksToMdLines : List Block → Nat → List (List Char)
  | [], _ => []
  | Block.mk t rich ch lang children :: bs, depth =>
      let line := blockLine depth t rich ch lang
      ((if line = [] then [] else [line]) ++
       (if children.isEmpty then []
        else [stripPy (joinNL (blocksToMdLines children (depth + 1)))])) ++
      blocksToMdLines bs depth

/-- app.py lines 255-311: `blocks_to_md` on a fully fetched child list (the
pagination loop gathers all children; the client and cursor plumbing is
abstracted away, the traversal and rendering are kept). -/
def blocks_to_md (bs : List Block) (depth : Nat) : List Char :=
  stripPy (joinNL (blocksToMdLines bs depth))

-- ───────────────────────────────────────────────────────────────────────────
-- Row building probes (app.py lines 515-529)
-- ───────────────────────────────────────────────────────────────────────────

/-- The canonical-name probe order of `_pages_for_group` (app.py line 521):
sorted by the key (0 if the name equals the display name else 1, name). -/
def canonProbeOrder (display : String) (canon : List String) : List String :=
  pySortBy
    (fun a b =>
      let ka : Nat := if a = display then 0 else 1
      let kb : Nat := if b = display then 0 else 1
      if ka < kb then true else if ka = kb then pyStrLe a b else false)
    canon

/-- The probe loop of `_pages_for_group` (app.py lines 520-529): an
`APIResponseError` from a probe is swallowed (empty subset), the first
non-empty subset wins, any other exception propagates. -/
def pagesLoop {π : Type} (probe : String → Except PyErr (List π)) :
    List String → Except PyErr (List π)
  | [] => .ok []
  | nm :: rest =>
      match probe nm with
      | .ok subset => if subset.isEmpty then pagesLoop probe rest else .ok subset
      | .error (.api _) => pagesLoop probe rest
      | .error .other => .error .other

/-- app.py lines 515-529: `_pages_for_group`, with the filtered page query
supplied as an oracle keyed by canonical name. -/
def pages_for_group {π : Type} (probe : String → Except PyErr (List π)) (display : String)
    (canon : List String) : Except PyErr (List π) :=
  pagesLoop probe (canonProbeOrder display canon)

-- ───────────────────────────────────────────────────────────────────────────
-- Checkpointed batch export engines (app.py lines 878-966 and 969-1061)
-- ───────────────────────────────────────────────────────────────────────────

/-- A display group as handed to the engines: display name, page count,
canonical names. -/
abbrev ExpGroup := String × Nat × List String

/-- app.py lines 881/908/971/1001: groups ordered ascending by (count, name). -/
def sortGroups (gs : List ExpGroup) : List ExpGroup :=
  pySortBy
    (fun a b =>
      if a.2.1 < b.2.1 then true
      else if a.2.1 = b.2.1 then pyStrLe a.1 b.1
      else false)
    gs

/-- Model of `sorted(set(l) | set([x]))` on an already sorted duplicate-free
list (the invariant maintained by the checkpoints from initialization on). -/
def insertStr (x : String) : List String → List String
  | [] => [x]
  | y :: ys => if x = y then y :: ys else if pyStrLe x y then x :: y :: ys else y :: insertStr x ys

/-- Python `[e for e in l if e != x]`. -/
def removeStr (x : String) (l : List String) : List String := l.filter (fun e => e ≠ x)

/-- Folding `insertStr` over a list of names (the completed-set contents after
a run of successful groups). -/
def insAllStr (base : List String) (xs : List String) : List String :=
  xs.foldl (fun a x => insertStr x a) base

/-- Overwriting file write keyed by file name (app.py `_write_csv_file`). -/
def upsertFile {β : Type} : List (String × β) → String → β → List (String × β)
  | [], k, v => [(k, v)]
  | p :: rest, k, v => if p.1 = k then (k, v) :: rest else p :: upsertFile rest k v

/-- Python-word characters for the slug regexes (backslash-w with re.UNICODE,
restricted to this application's alphabet: ASCII alphanumerics, underscore,
and the accented Hungarian letters). -/
def isWordPy (c : Char) : Bool :=
  if c.toNat < 128 then c.isAlphanum || c = '_' else (asciiFoldChar c).isSome

/-- Collapse every run of whitespace or hyphens into one underscore
(app.py line 822). -/
def collapseWs : List Char → List Char
  | [] => []
  | c :: rest =>
      if isPySpace c || c = '-' then
        '_' :: collapseWs (rest.dropWhile (fun d => isPySpace d || d = '-'))
      else c :: collapseWs rest
termination_by l => l.length
decreasing_by
  · exact Nat.lt_succ_of_le (List.dropWhile_sublist _).length_le
  · simp

/-- app.py lines 819-823: `_slug`. -/
def slug (s : String) : String :=
  let t := (pyLowerStr (String.mk (stripPy s.data))).data
  let t := t.filter (fun c => isWordPy c || isPySpace c || c = '-')
  String.mk ((collapseWs t).take 80)

/-- app.py lines 838-844: the per-group CSV file name inside the run dir. -/
def fileNameFor (name : String) : String := "export_" ++ slug name ++ ".csv"

/-- Checkpoint-plus-run-directory state of the ZIP engine.  `files` is the
run directory's CSV contents keyed by file name; `log` is a model-only trace
of the groups for which the row builder was actually invoked (one entry per
`_retry_export_one` call).  The timing fields (durations, eta_sec_per_item)
are wall-clock statistics that never influence the exported data and are not
modelled; the write-only `pending` list is likewise omitted. -/
structure ZipSt (β : Type) where
  completed : List String
  failed : List String
  retries : Nat
  total : Nat
  files : List (String × β)
  log : List String
deriving DecidableEq, Repr

/-- The initial checkpoint of `_init_run` (app.py lines 878-895). -/
def zipFresh (β : Type) (total : Nat) : ZipSt β := ⟨[], [], 0, total, [], []⟩

/-- One iteration of the group loop of `export_engine` (app.py lines
926-957): only groups already in `completed` are skipped; the oracle `O name
attempt` is the outcome of `export_one` for that group and attempt. -/
def zipStep {β : Type} (O : String → Nat → Except PyErr β) (s : ZipSt β) (g : ExpGroup) :
    ZipSt β :=
  if s.completed.contains g.1 then s
  else
    let r := retry_export_one (O g.1)
    let s1 := { s with retries := s.retries + r.1.2, log := s.log ++ [g.1] }
    match r.1.1 with
    | none => { s1 with failed := insertStr g.1 s1.failed }
    | some data =>
        { s1 with
          files := upsertFile s1.files (fileNameFor g.1) data
          completed := insertStr g.1 s1.completed
          failed := if s1.failed.contains g.1 then removeStr g.1 s1.failed else s1.failed }

/-- The group loop of `export_engine` over an already ordered group list. -/
def export_engine_loop {β : Type} (O : String → Nat → Except PyErr β) (s : ZipSt β)
    (ordered : List ExpGroup) : ZipSt β :=
  ordered.foldl (zipStep O) s

/-- app.py lines 825-836: the final archive — the run directory's CSV files
(checkpoint .json and log .txt are filtered out) in sorted file-name order. -/
def zipArtifact {β : Type} (s : ZipSt β) : List (String × β) :=
  pySortBy (fun a b => pyStrLe a.1 b.1) s.files

/-- app.py lines 907-966: `export_engine` — sort groups, run the loop from the
given checkpoint state, and produce the ZIP artifact only when every group of
the run is completed. -/
def export_engine {β : Type} (O : String → Nat → Except PyErr β) (s : ZipSt β)
    (groups : List ExpGroup) : ZipSt β × Option (List (String × β)) :=
  let s' := export_engine_loop O s (sortGroups groups)
  (s', if s'.completed.length = s'.total then some (zipArtifact s') else none)

/-- Checkpoint-plus-row-store state of the unified engine.  `ndjson` is the
append-only durable row store; `log` is the model-only trace of groups for
which `_retry_build_rows` was invoked.  Timing fields are omitted as in
`ZipSt`. -/
structure UniSt (ρ : Type) where
  completed : List String
  failed : List String
  retries : Nat
  total : Nat
  rowsWritten : Nat
  ndjson : List ρ
  log : List String
deriving DecidableEq, Repr

/-- The initial checkpoint of `_init_unified_run` (app.py lines 969-990). -/
def uniFresh (ρ : Type) (total : Nat) : UniSt ρ := ⟨[], [], 0, total, 0, [], []⟩

/-- One iteration of the group loop of `unified_export_engine` (app.py lines
1012-1052).  The skip tests use the `completed_set` / `failed_set` snapshots
taken before the loop (app.py lines 1009-1010), passed here as `comp0` and
`fail0`. -/
def uniStep {ρ : Type} (O : String → Nat → Except PyErr (List ρ)) (comp0 fail0 : List String)
    (s : UniSt ρ) (g : ExpGroup) : UniSt ρ :=
  if comp0.contains g.1 then s
  else if fail0.contains g.1 then s
  else
    let r := retry_build_rows (O g.1)
    let rows := r.1.1
    let s1 := { s with retries := s.retries + r.1.2, log := s.log ++ [g.1] }
    if rows.isEmpty then { s1 with failed := insertStr g.1 s1.failed }
    else
      { s1 with
        ndjson := s1.ndjson ++ rows
        rowsWritten := s1.rowsWritten + rows.length
        completed := insertStr g.1 s1.completed
        failed := if s1.failed.contains g.1 then removeStr g.1 s1.failed else s1.failed }

/-- The group loop of `unified_export_engine` over an ordered group list with
fixed skip snapshots. -/
def unified_engine_loop {ρ : Type} (O : String → Nat → Except PyErr (List ρ))
    (comp0 fail0 : List String) (s : UniSt ρ) (ordered : List ExpGroup) : UniSt ρ :=
  ordered.foldl (uniStep O comp0 fail0) s

/-- app.py lines 1000-1061: `unified_export_engine` — sort groups, snapshot
the completed/failed sets, run the loop, and assemble the final unified table
(`_finalize_unified_csv` streams exactly the ndjson row list, so the artifact
is modelled as that row list) only when every group is completed. -/
def unified_export_engine {ρ : Type} (O : String → Nat → Except PyErr (List ρ))
    (s : UniSt ρ) (groups : List ExpGroup) : UniSt ρ × Option (List ρ) :=
  let s' := unified_engine_loop O s.completed s.failed s (sortGroups groups)
  (s', if s'.completed.length = s'.total then some s'.ndjson else none)

-- ───────────────────────────────────────────────────────────────────────────
-- Helper lemmas
-- ───────────────────────────────────────────────────────────────────────────

theorem mem_insertLe {α : Type} (le : α → α → Bool) (x y : α) (l : List α) :
    y ∈ insertLe le x l ↔ y = x ∨ y ∈ l := by
  induction l with
  | nil => simp [insertLe]
  | cons z zs ih =>
      by_cases h : le z x
      · simp only [insertLe, h, if_pos, List.mem_cons, ih]
        try tauto
      · simp only [insertLe, h, Bool.false_eq_true, if_false, List.mem_cons]
        try tauto

theorem insertLe_perm {α : Type} (le : α → α → Bool) (x : α) (l : List α) :
    (insertLe le x l).Perm (x :: l) := by
  induction l with
  | nil => simp [insertLe]
  | cons z zs ih =>
      by_cases h : le z x
      · simp only [insertLe, h, if_pos]
        exact (ih.cons z).trans (List.Perm.swap x z zs)
      · simp [insertLe, h]

theorem pySortBy_perm {α : Type} (le : α → α → Bool) (l : List α) :
    (pySortBy le l).Perm l := by
  suffices h : ∀ (l : List α) (acc : List α),
      (l.foldl (fun acc x => insertLe le x acc) acc).Perm (acc ++ l) by
    simpa using h l []
  intro l
  induction l with
  | nil => simp
  | cons x xs ih =>
      intro acc
      simp only [List.foldl_cons]
      refine (ih (insertLe le x acc)).trans ?_
      have h1 : (insertLe le x acc ++ xs).Perm ((x :: acc) ++ xs) :=
        (insertLe_perm le x acc).append_right xs
      refine h1.trans ?_
      simp only [List.cons_append]
      exact (List.perm_middle).symm

theorem mem_pySortBy {α : Type} (le : α → α → Bool) (x : α) (l : List α) :
    x ∈ pySortBy le l ↔ x ∈ l :=
  (pySortBy_perm le l).mem_iff

theorem retry_build_ok {ρ : Type} (b : Nat → Except PyErr (List ρ)) (rows : List ρ)
    (h : b 0 = .ok rows) : retry_build_rows b = ((rows, 0), []) := by
  simp [retry_build_rows, retryBuildAux, h]

theorem retry_export_ok {β : Type} (e : Nat → Except PyErr β) (v : β)
    (h : e 0 = .ok v) : retry_export_one e = ((some v, 0), []) := by
  simp [retry_export_one, retryExportAux, h]

theorem contains_iff_memStr (l : List String) (s : String) : l.contains s = true ↔ s ∈ l :=
  List.elem_iff

theorem statusRetryable_false {s : Nat} (h : s ∉ retrySet) :
    statusRetryable (some s) = false := by
  have : ¬(retrySet.contains s = true) := fun hc => h (List.elem_iff.mp hc)
  simpa [statusRetryable] using this

theorem statusRetryable_true {s : Nat} (h : s ∈ retrySet) :
    statusRetryable (some s) = true := by
  simpa [statusRetryable] using List.elem_iff.mpr h

/-- C4: the claim's retryable-status set does not match the code.  All three
wrappers consult the tuple (429, 500, 502, 503): a 409 or a 504 is never
retried — `with_backoff` re-raises it at once with no backoff sleep, and
`_retry_build_rows` breaks out of its attempt loop — and `with_backoff` does
not retry generic exceptions either, re-raising them on the first attempt,
contrary to the claim that every wrapper retries 409/429/500/502/503/504 and
generic exceptions. -/
theorem C4_counterexample :
    with_backoff (fun _ => (.error (.api (some 409)) : Except PyErr Nat)) =
      (.error (.api (some 409)), []) ∧
    with_backoff (fun _ => (.error (.api (some 504)) : Except PyErr Nat)) =
      (.error (.api (some 504)), []) ∧
    with_backoff (fun _ => (.error .other : Except PyErr Nat)) = (.error .other, []) ∧
    retry_build_rows (fun _ => (.error (.api (some 409)) : Except PyErr (List Nat))) =
      (([], 2), []) ∧
    retry_export_one (fun _ => (.error (.api (some 504)) : Except PyErr Nat)) =
      ((none, 2), []) := by
  refine ⟨rfl, rfl, rfl, rfl, rfl⟩

/-- C4 (amended): the retryable statuses are exactly 429, 500, 502 and 503.
`with_backoff` retries exactly those API statuses with exponential backoff
(2 to the i plus 0.1 seconds, up to six attempts, returning Python None on
exhaustion) and re-raises any other API status and any generic exception
immediately; `_retry_build_rows` and `_retry_export_one` (three attempts,
backoff 2 to the k seconds) additionally retry generic exceptions, and break
the attempt loop early exactly on an API status outside that set. -/
theorem C4_retry_policy {α ρ : Type} (f : Nat → Except PyErr α)
    (b : Nat → Except PyErr (List ρ)) (e : Nat → Except PyErr α)
    (s : Nat) (v : α) (rows : List ρ) :
    (s ∈ retrySet → f 0 = .error (.api (some s)) → f 1 = .ok v →
      with_backoff f = (.ok (some v), [2 ^ 0 + 1 / 10])) ∧
    (s ∉ retrySet → f 0 = .error (.api (some s)) →
      with_backoff f = (.error (.api (some s)), [])) ∧
    (f 0 = .error .other → with_backoff f = (.error .other, [])) ∧
    ((∀ i, f i = .error (.api (some 429))) →
      with_backoff f = (.ok none, (List.range 6).map (fun i => (2 : ℚ) ^ i + 1 / 10))) ∧
    (b 0 = .error .other → b 1 = .ok rows → retry_build_rows b = ((rows, 1), [2 ^ 0])) ∧
    (s ∈ retrySet → b 0 = .error (.api (some s)) → b 1 = .ok rows →
      retry_build_rows b = ((rows, 1), [2 ^ 0])) ∧
    (s ∉ retrySet → b 0 = .error (.api (some s)) → retry_build_rows b = (([], 2), [])) ∧
    ((∀ k, b k = .error (.api (some s))) → s ∈ retrySet →
      retry_build_rows b = (([], 2), [2 ^ 0, 2 ^ 1, 2 ^ 2])) ∧
    (e 0 = .error .other → e 1 = .ok v → retry_export_one e = ((some v, 1), [2 ^ 0])) ∧
    (s ∉ retrySet → e 0 = .error (.api (some s)) → retry_export_one e = ((none, 2), [])) := by
  refine ⟨?_, ?_, ?_, ?_, ?_, ?_, ?_, ?_, ?_, ?_⟩
  · intro hs h0 h1
    simp [with_backoff, backoffAux, h0, h1, statusRetryable_true hs]
  · intro hs h0
    simp [with_backoff, backoffAux, h0, statusRetryable_false hs]
  · intro h0
    simp [with_backoff, backoffAux, h0]
  · intro hall
    have hr : statusRetryable (some 429) = true := by decide
    simp [with_backoff, backoffAux, hall, hr, List.range_succ]
  · intro h0 h1
    simp [retry_build_rows, retryBuildAux, h0, h1]
  · intro hs h0 h1
    simp [retry_build_rows, retryBuildAux, h0, h1, statusRetryable_true hs]
  · intro hs h0
    simp [retry_build_rows, retryBuildAux, h0, statusRetryable_false hs]
  · intro hall hs
    simp [retry_build_rows, retryBuildAux, hall, statusRetryable_true hs]
  · intro h0 h1
    simp [retry_export_one, retryExportAux, h0, h1]
  · intro hs h0
    simp [retry_export_one, retryExportAux, h0, statusRetryable_false hs]

/-- C4 witness: the amended policy applied at concrete oracles — a 429
followed by success is retried once with one backoff sleep, and a 400 aborts
the build loop at once. -/
theorem C4_retry_policy_witness :
    with_backoff (fun i => if i = 0 then (.error (.api (some 429)) : Except PyErr Nat) else .ok 5) =
      (.ok (some 5), [2 ^ 0 + 1 / 10]) ∧
    retry_build_rows (fun _ => (.error (.api (some 400)) : Except PyErr (List Nat))) =
      (([], 2), []) := by
  constructor
  · exact (C4_retry_policy
      (fun i => if i = 0 then (.error (.api (some 429)) : Except PyErr Nat) else .ok 5)
      (fun _ => (.ok [] : Except PyErr (List Nat))) (fun _ => .ok 5) 429 5 []).1
      (by decide) rfl rfl
  · exact ((C4_retry_policy (fun _ => (.ok 0 : Except PyErr Nat))
      (fun _ => (.error (.api (some 400)) : Except PyErr (List Nat)))
      (fun _ => .ok 0) 400 0 []).2.2.2.2.2.2.1) (by decide) rfl

/-- C9: the claim is false on the code — `blocks_to_md` contains no bracketed
placeholder branch at all.  An equation block and media blocks (here an image
carrying caption text) contribute no output line whatsoever: their content
silently vanishes from the linearized text instead of appearing as a
bracketed type tag (plus caption for media). -/
theorem C9_counterexample :
    blocks_to_md [Block.mk "equation" [⟨"E = mc^2".data, false, false, false, false⟩]
      false [] []] 0 = [] ∧
    blocks_to_md [Block.mk "image" [⟨"a caption".data, false, false, false, false⟩]
      false [] []] 0 = [] ∧
    blocks_to_md [Block.mk "video" [⟨"clip".data, false, false, false, false⟩]
      false [] []] 0 = [] ∧
    blocks_to_md [Block.mk "pdf" [] false [] []] 0 = [] ∧
    blocks_to_md [Block.mk "file" [] false [] []] 0 = [] := by
  refine ⟨?_, ?_, ?_, ?_, ?_⟩ <;>
  · rw [blocks_to_md]
    rw [show blocksToMdLines _ 0 = [] by simp [blocksToMdLines, blockLine, textBlockTypes]]
    rfl

/-- C9 (amended): a block whose type is outside the rendered set (the ten
prefix-rendered text types, code, divider) produces no line of its own — no
bracketed placeholder exists — so a childless unrecognized block contributes
nothing to the output, and an unrecognized block with children contributes
exactly its children's rendering. -/
theorem C9_unrecognized_blocks (t : String) (rich : List RichSpan) (ch : Bool)
    (lang : List Char) (depth : Nat) (children : List Block)
    (hnt : t ∉ textBlockTypes) (hc : t ≠ "code") (hd : t ≠ "divider") :
    blockLine depth t rich ch lang = [] ∧
    blocks_to_md [Block.mk t rich ch lang []] depth = [] ∧
    (children ≠ [] →
      blocksToMdLines [Block.mk t rich ch lang children] depth =
        [stripPy (joinNL (blocksToMdLines children (depth + 1)))]) := by
  have hcont : textBlockTypes.contains t = false := by
    have : ¬(textBlockTypes.contains t = true) := fun hx => hnt (List.elem_iff.mp hx)
    simpa using this
  have hline : blockLine depth t rich ch lang = [] := by
    simp only [blockLine, hcont, Bool.false_eq_true, if_false, hc, hd, ite_false]
  refine ⟨hline, ?_, ?_⟩
  · rw [blocks_to_md]
    rw [show blocksToMdLines [Block.mk t rich ch lang []] depth = [] by
      simp [blocksToMdLines, hline]]
    rfl
  · intro hch
    simp [blocksToMdLines, hline, hch]

/-- C9 witness: the amended statement applied at an equation block and at an
image block with a paragraph child. -/
theorem C9_unrecognized_blocks_witness :
    ("equation" ∉ textBlockTypes ∧ "equation" ≠ "code" ∧ "equation" ≠ "divider") ∧
    blocks_to_md [Block.mk "equation" [⟨"E = mc^2".data, false, false, false, false⟩]
      false [] []] 3 = [] ∧
    blocksToMdLines [Block.mk "image" [] false []
        [Block.mk "paragraph" [⟨"inner".data, false, false, false, false⟩] false [] []]] 0 =
      [stripPy (joinNL (blocksToMdLines
        [Block.mk "paragraph" [⟨"inner".data, false, false, false, false⟩] false [] []] 1))] := by
  refine ⟨⟨by decide, by decide, by decide⟩, ?_, ?_⟩
  · exact (C9_unrecognized_blocks "equation" [⟨"E = mc^2".data, false, false, false, false⟩]
      false [] 3 [] (by decide) (by decide) (by decide)).2.1
  · exact (C9_unrecognized_blocks "image" [] false [] 0
      [Block.mk "paragraph" [⟨"inner".data, false, false, false, false⟩] false [] []]
      (by decide) (by decide) (by decide)).2.2 (by simp)

theorem numParse_not_fence (l : List Char) (p : List Char × List Char)
    (h : numParse l = some p) : fenceMatch l = false := by
  unfold numParse at h
  unfold fenceMatch
  cases hr : l.dropWhile isPySpace with
  | nil => rw [hr] at h; simp at h
  | cons c rest =>
      rw [hr] at h
      by_cases hd : c.isDigit
      · have hcb : c ≠ btickChar := by
          intro he; rw [he] at hd; exact absurd hd (by decide)
        simp [hcb]
      · have hds : (c :: rest).takeWhile Char.isDigit = [] := by
          simp [List.takeWhile_cons, hd]
        simp [hds] at h

theorem lookupD_setAssoc (m : List (Nat × Nat)) (k v d : Nat) :
    lookupD (setAssoc m k v) k d = v := by
  induction m with
  | nil => simp [setAssoc, lookupD]
  | cons p rest ih =>
      by_cases h : p.1 = k
      · simp [setAssoc, h, lookupD]
      · have hd : decide (p.1 = k) = false := decide_eq_false h
        simp only [setAssoc, h, if_false, ite_false]
        simp only [lookupD, List.find?_cons, hd]
        exact ih

theorem numScan_append (st : NumSt) (xs ys : List (List Char)) :
    numScan st (xs ++ ys) =
      ((numScan (numScan st xs).1 ys).1,
       (numScan st xs).2 ++ (numScan (numScan st xs).1 ys).2) := by
  induction xs generalizing st with
  | nil => simp [numScan]
  | cons l ls ih => simp [numScan, ih]

theorem numScan_run_cont (d : Nat) (run : List (List Char)) :
    ∀ (st : NumSt) (m : Nat), st.inCode = false → st.active = some d →
      lookupD st.counters d 0 = m →
      (∀ l ∈ run, ∃ pr, numParse l = some pr ∧ pr.1.length = d) →
      (numScan st run).2 = run.mapIdx (fun i l => renumLine l (m + i + 1)) ∧
      (numScan st run).1.inCode = false ∧
      (numScan st run).1.active = some d ∧
      lookupD (numScan st run).1.counters d 0 = m + run.length := by
  induction run with
  | nil =>
      intro st m hcode hact hcnt _
      exact ⟨rfl, hcode, hact, by simpa using hcnt⟩
  | cons l ls ih =>
      intro st m hcode hact hcnt hrun
      obtain ⟨⟨ind, c⟩, hp, hlen⟩ := hrun l (List.mem_cons_self l ls)
      have hf : fenceMatch l = false := numParse_not_fence l _ hp
      have hstep : numStep st l =
          ({ st with counters := setAssoc st.counters d (m + 1) },
           ind ++ natLit (m + 1) ++ '.' :: ' ' :: c) := by
        simp only [numStep, hf, Bool.false_eq_true, if_false, hcode, hp, hlen, hact,
          ite_true, hcnt, ite_false]
      have hst' : (numStep st l).1 = { st with counters := setAssoc st.counters d (m + 1) } := by
        rw [hstep]
      have hout : (numStep st l).2 = renumLine l (m + 0 + 1) := by
        rw [hstep]; simp [renumLine, hp]
      have hres := ih { st with counters := setAssoc st.counters d (m + 1) } (m + 1)
        hcode hact (lookupD_setAssoc _ _ _ _)
        (fun x hx => hrun x (List.mem_cons_of_mem l hx))
      refine ⟨?_, ?_, ?_, ?_⟩
      · show (numStep st l).2 :: (numScan (numStep st l).1 ls).2 = _
        rw [hout, hst', List.mapIdx_cons, hres.1]
        congr 1
        have hfun : (fun i l => renumLine l (m + 1 + i + 1)) =
            (fun i l => renumLine l (m + (i + 1) + 1)) := by
          funext i x; congr 1; omega
        rw [hfun]
      · show (numScan (numStep st l).1 ls).1.inCode = false
        rw [hst']; exact hres.2.1
      · show (numScan (numStep st l).1 ls).1.active = some d
        rw [hst']; exact hres.2.2.1
      · show lookupD (numScan (numStep st l).1 ls).1.counters d 0 = m + (ls.length + 1)
        rw [hst']
        rw [hres.2.2.2]
        omega

theorem numScan_run (d : Nat) (run : List (List Char)) (st : NumSt)
    (hcode : st.inCode = false) (hact : st.active ≠ some d)
    (hrun : ∀ l ∈ run, ∃ pr, numParse l = some pr ∧ pr.1.length = d) :
    (numScan st run).2 = run.mapIdx (fun i l => renumLine l (i + 1)) := by
  cases run with
  | nil => rfl
  | cons l ls =>
      obtain ⟨⟨ind, c⟩, hp, hlen⟩ := hrun l (List.mem_cons_self l ls)
      have hf : fenceMatch l = false := numParse_not_fence l _ hp
      have hstep : numStep st l =
          (⟨st.inCode, setAssoc (st.counters.filter (fun p => p.1 < d)) d 1, some d⟩,
           ind ++ natLit 1 ++ '.' :: ' ' :: c) := by
        simp only [numStep, hf, Bool.false_eq_true, if_false, hcode, hp, hlen]
        rw [if_neg hact]
      have hres := numScan_run_cont d ls
        ⟨st.inCode, setAssoc (st.counters.filter (fun p => p.1 < d)) d 1, some d⟩ 1
        hcode rfl (lookupD_setAssoc _ _ _ _)
        (fun x hx => hrun x (List.mem_cons_of_mem l hx))
      have hout : (numStep st l).2 = renumLine l 1 := by
        rw [hstep]; simp [renumLine, hp]
      have hst' : (numStep st l).1 =
          ⟨st.inCode, setAssoc (st.counters.filter (fun p => p.1 < d)) d 1, some d⟩ := by
        rw [hstep]
      show (numStep st l).2 :: (numScan (numStep st l).1 ls).2 = _
      rw [List.mapIdx_cons, hout, hst', hres.1]
      congr 1
      have hfun : (fun i x => renumLine x (1 + i + 1)) =
          (fun i x => renumLine x ((i + 1) + 1)) := by
        funext i x; congr 1; omega
      rw [hfun]

/-- C2: the claim is false on the code — a run of numbered lines at the same
indentation interrupted by a more deeply indented content line is NOT
renumbered continuously.  On "1. a" / "  x" / "2. b" the code yields "1. b"
for the third line (any non-numbered line, even one indented deeper than the
list, resets the counter), while the claim — which ignores content indented
deeper than the list — demands one run numbered 1., 2. -/
theorem C2_counterexample :
    fix_numbered_lists ("1. a\n  x\n2. b".data) = ("1. a\n  x\n1. b".data) ∧
    fix_numbered_lists ("1. a\n  x\n2. b".data) ≠ ("1. a\n  x\n2. b".data) := by
  constructor
  · decide
  · decide

/-- C2 (amended): every maximal run of N immediately consecutive
numbered-list lines at the same indentation, entered outside a fenced code
block with no numbered list active at that indentation (in particular right
after a heading or any other non-numbered line, which always resets the
scanner), is rewritten to 1. through N. in order; lines indented deeper than
the list do not extend a run — any intervening non-numbered line ends it. -/
theorem C2_run_renumbering (pre run post : List (List Char)) (d : Nat)
    (hcode : (numScan numSt0 pre).1.inCode = false)
    (hact : (numScan numSt0 pre).1.active ≠ some d)
    (hrun : ∀ l ∈ run, ∃ pr, numParse l = some pr ∧ pr.1.length = d) :
    (numScan numSt0 (pre ++ run ++ post)).2 =
      (numScan numSt0 pre).2 ++ run.mapIdx (fun i l => renumLine l (i + 1)) ++
      (numScan (numScan (numScan numSt0 pre).1 run).1 post).2 := by
  have hrun2 : (numScan (numScan numSt0 pre).1 run).2 =
      run.mapIdx (fun i l => renumLine l (i + 1)) :=
    numScan_run d run _ hcode hact hrun
  rw [numScan_append numSt0 (pre ++ run) post, numScan_append numSt0 pre run]
  simp only [numScan_append numSt0 pre run]
  rw [hrun2]
  try simp [List.append_assoc]

/-- C2 witness: a heading between two numbered runs — the run after the
heading restarts at 1 and counts 1., 2. -/
theorem C2_run_renumbering_witness :
    (numScan numSt0 ["3. q".data, "# Heading".data]).1.inCode = false ∧
    (numScan numSt0 ["3. q".data, "# Heading".data]).1.active ≠ some 0 ∧
    (numScan numSt0 (["3. q".data, "# Heading".data] ++ ["4. a".data, "9. b".data] ++
        ["tail".data])).2 =
      (numScan numSt0 ["3. q".data, "# Heading".data]).2 ++
      (["4. a".data, "9. b".data].mapIdx (fun i l => renumLine l (i + 1))) ++
      (numScan (numScan (numScan numSt0 ["3. q".data, "# Heading".data]).1
        ["4. a".data, "9. b".data]).1 ["tail".data]).2 := by
  refine ⟨by decide, by decide, ?_⟩
  exact C2_run_renumbering ["3. q".data, "# Heading".data] ["4. a".data, "9. b".data]
    ["tail".data] 0 (by decide) (by decide)
    (by
      intro l hl
      fin_cases hl
      · exact ⟨([], "a".data), rfl, rfl⟩
      · exact ⟨([], "b".data), rfl, rfl⟩)

/-- C5: the claim is false on the code — a blank line, and a line indented
more deeply than the active list, both close the active numbered list (the
scanner resets `active_list_indent` on every non-matching line), so the
following numbered line restarts at 1 instead of continuing the count as the
claim demands. -/
theorem C5_counterexample :
    fix_numbered_lists ("1. a\n\n2. b".data) = ("1. a\n\n1. b".data) ∧
    fix_numbered_lists ("1. a\n\n2. b".data) ≠ ("1. a\n\n2. b".data) ∧
    fix_numbered_lists ("1. a\n\tcont\n2. b".data) = ("1. a\n\tcont\n1. b".data) ∧
    fix_numbered_lists ("1. a\n\tcont\n2. b".data) ≠ ("1. a\n\tcont\n2. b".data) := by
  refine ⟨by decide, by decide, by decide, by decide⟩

/-- C5 (amended): outside fenced code, EVERY line that does not match the
numbered-item pattern — including a blank line and a line indented more
deeply than the active list — closes the active list (the scanner's active
indent becomes none), and the next numbered line then restarts its counter at
1, discarding the counters at its indentation and deeper. -/
theorem C5_list_closing (st : NumSt) (line l2 ind c : List Char) (d : Nat)
    (hcode : st.inCode = false)
    (hnum : numParse line = none)
    (hfence : fenceMatch line = false)
    (hl2 : numParse l2 = some (ind, c)) (hind : ind.length = d) :
    numStep st line = ({ st with active := none }, line) ∧
    numStep { st with active := none } l2 =
      (⟨false, setAssoc (st.counters.filter (fun p => p.1 < d)) d 1, some d⟩,
       ind ++ natLit 1 ++ '.' :: ' ' :: c) := by
  constructor
  · simp [numStep, hfence, hcode, hnum]
  · have hf2 : fenceMatch l2 = false := numParse_not_fence l2 _ hl2
    simp [numStep, hf2, hcode, hl2, hind]

/-- C5 witness: with a list active at indent 0 and its counter at 2, a blank
line closes the list and a following numbered line restarts at 1. -/
theorem C5_list_closing_witness :
    numParse ([] : List Char) = none ∧
    numParse ("7. z".data) = some ([], "z".data) ∧
    numStep ⟨false, [(0, 2)], some 0⟩ [] = (⟨false, [(0, 2)], none⟩, []) ∧
    numStep ⟨false, [(0, 2)], none⟩ ("7. z".data) =
      (⟨false, [(0, 1)], some 0⟩, "1. z".data) := by
  refine ⟨rfl, rfl, ?_, ?_⟩
  · exact (C5_list_closing ⟨false, [(0, 2)], some 0⟩ [] ("7. z".data) [] "z".data 0
      rfl rfl rfl rfl rfl).1
  · have h := (C5_list_closing ⟨false, [(0, 2)], some 0⟩ [] ("7. z".data) [] "z".data 0
      rfl rfl rfl rfl rfl).2
    simpa using h

theorem pickAux_finds (targets : List (List Char)) :
    ∀ (m : SectAssoc) (kv : List Char) (bv : List (List Char)),
      (kv, bv) ∈ m → targets.contains (normalizePy kv) = true → joinStripPy bv ≠ [] →
      (∀ p ∈ m, targets.contains (normalizePy p.1) = true → p = (kv, bv)) →
      pickAux targets m = some (joinStripPy bv) := by
  intro m
  induction m with
  | nil => intro kv bv h; simp at h
  | cons q rest ih =>
      intro kv bv hmem ht hnb huniq
      obtain ⟨k, v⟩ := q
      by_cases hk : targets.contains (normalizePy k) = true
      · have heq : (k, v) = (kv, bv) := huniq (k, v) (List.mem_cons_self _ _) hk
        obtain ⟨hk1, hk2⟩ := Prod.mk.injEq .. ▸ heq
        subst hk1
        subst hk2
        have hne : (joinStripPy v).isEmpty = false := by
          cases he : (joinStripPy v).isEmpty
          · rfl
          · exact absurd (List.isEmpty_iff.mp he) hnb
        simp only [pickAux, hk, hne, Bool.not_false, Bool.and_self, if_true]
      · have hkv : (kv, bv) ≠ (k, v) := by
          intro he
          injection he with h1 h2
          subst h1
          exact hk ht
        have hmem' : (kv, bv) ∈ rest := by
          rcases List.mem_cons.mp hmem with h | h
          · exact absurd h hkv
          · exact h
        have hkb : targets.contains (normalizePy k) = false := by
          cases hc : targets.contains (normalizePy k)
          · rfl
          · exact absurd hc hk
        rw [pickAux, hkb]
        simp only [Bool.false_and, Bool.false_eq_true, if_false]
        exact ih kv bv hmem' ht hnb (fun p hp hpt => huniq p (List.mem_cons_of_mem _ hp) hpt)

/-- C3: for a linearized text whose H2 sections contain exactly one section
with a video heading, that section non-blank, and also some non-blank
lesson-headed section, the extractor returns exactly the video section's
joined, stripped body tagged video_szoveg; the lesson section is never
consulted, never returned, and never concatenated alongside. -/
theorem C3_video_exclusivity (md : List Char) (kv : List Char) (bv : List (List Char))
    (kl : List Char) (bl : List (List Char))
    (hv : (kv, bv) ∈ split_h2_sections md)
    (hvt : normalizePy kv ∈ videoVariants.map normalizePy)
    (hvb : joinStripPy bv ≠ [])
    (huniq : ∀ p ∈ split_h2_sections md,
      normalizePy p.1 ∈ videoVariants.map normalizePy → p = (kv, bv))
    (hl : (kl, bl) ∈ split_h2_sections md)
    (hlt : normalizePy kl ∈ lessonVariants.map normalizePy)
    (hlb : joinStripPy bl ≠ []) :
    select_video_or_lesson_with_type md = (joinStripPy bv, some "video_szoveg") := by
  have hpick : pickAux (videoVariants.map normalizePy) (split_h2_sections md) =
      some (joinStripPy bv) :=
    pickAux_finds (videoVariants.map normalizePy) (split_h2_sections md) kv bv hv
      (List.elem_iff.mpr hvt) hvb
      (fun p hp hpt => huniq p hp (List.elem_iff.mp hpt))
  simp [select_video_or_lesson_with_type, hpick]

/-- C3 witness: the spec's example scenario — a page containing both a
non-blank video section and a non-blank lesson section exports exactly the
video body. -/
theorem C3_video_exclusivity_witness :
    select_video_or_lesson_with_type
        ("## Videó szöveg\n1. foo\n2. bar\n## Lecke szöveg\nignored".data) =
      (joinStripPy ["1. foo".data, "2. bar".data], some "video_szoveg") ∧
    joinStripPy ["1. foo".data, "2. bar".data] = "1. foo\n2. bar".data := by
  constructor
  · exact C3_video_exclusivity _ ("Videó szöveg".data) ["1. foo".data, "2. bar".data]
      ("Lecke szöveg".data) ["ignored".data]
      (by decide) (by decide) (by decide) (by decide) (by decide) (by decide) (by decide)
  · decide

theorem rfindNN_eq_none (l : List Char) (h : '\n' ∉ l) : rfindNN l = none := by
  unfold rfindNN
  apply List.find?_eq_none.mpr
  intro i _
  simp only [decide_eq_true_eq]
  intro heq
  have hmem : '\n' ∈ (l.drop i).take 2 := by rw [heq]; simp
  exact h (List.drop_subset i l (List.take_subset _ _ hmem))

theorem rstripPy_eq_self (l : List Char) (h : ∀ c ∈ l, isPySpace c = false) :
    rstripPy l = l := by
  have hdw : List.dropWhile isPySpace l.reverse = l.reverse := by
    cases hr : l.reverse with
    | nil => rfl
    | cons x xs =>
        have hx : x ∈ l := by
          rw [← List.mem_reverse, hr]; exact List.mem_cons_self _ _
        rw [List.dropWhile_cons, if_neg (by simp [h x hx])]
  unfold rstripPy
  rw [hdw, List.reverse_reverse]

theorem rstripPy_allWS (l : List Char) (h : ∀ c ∈ l, isPySpace c = true) :
    rstripPy l = [] := by
  unfold rstripPy
  rw [List.dropWhile_eq_nil_iff.mpr (fun x hx => by simpa using h x (List.mem_reverse.mp hx))]
  rfl

theorem chunkEnd_noNN (maxLen : Nat) (rem : List Char) (h : '\n' ∉ rem) :
    chunkEnd maxLen rem = min maxLen rem.length := by
  unfold chunkEnd
  rw [rfindNN_eq_none _ (fun hm => h (List.take_subset _ _ hm))]

theorem take_min_eq (maxLen : Nat) (rem : List Char) :
    rem.take (min maxLen rem.length) = rem.take maxLen := by
  rcases le_total maxLen rem.length with hle | hle
  · rw [min_eq_left hle]
  · rw [min_eq_right hle, List.take_length, List.take_of_length_le hle]

theorem drop_min_eq (maxLen : Nat) (rem : List Char) :
    rem.drop (min maxLen rem.length) = rem.drop maxLen := by
  rcases le_total maxLen rem.length with hle | hle
  · rw [min_eq_left hle]
  · rw [min_eq_right hle, List.drop_length, List.drop_eq_nil_of_le hle]

theorem splitChunks_step_noWS (maxLen : Nat) (rem : List Char) (hml : 0 < maxLen)
    (hne : rem ≠ []) (h : ∀ c ∈ rem, isPySpace c = false) :
    splitChunks maxLen rem = rem.take maxLen :: splitChunks maxLen (rem.drop maxLen) := by
  have hnl : '\n' ∉ rem := fun hm => absurd (h '\n' hm) (by decide)
  have hce : chunkEnd maxLen rem = min maxLen rem.length := chunkEnd_noNN maxLen rem hnl
  have hpos : 0 < rem.length := List.length_pos.mpr hne
  have hnz : chunkEnd maxLen rem ≠ 0 := by rw [hce]; omega
  have hpart : rstripPy (rem.take (chunkEnd maxLen rem)) = rem.take maxLen := by
    rw [hce, take_min_eq]
    exact rstripPy_eq_self _ (fun c hc => h c (List.take_subset _ _ hc))
  have hpne : rem.take maxLen ≠ [] := by
    have hlt : (rem.take maxLen).length = min maxLen rem.length := List.length_take _ _
    intro he
    rw [he] at hlt
    simp only [List.length_nil] at hlt
    omega
  rw [splitChunks, dif_neg hne, dif_neg hnz, hpart, if_neg hpne, hce, drop_min_eq]

theorem splitChunks_allWS (maxLen : Nat) (hml : 0 < maxLen) :
    ∀ (n : Nat) (rem : List Char), rem.length ≤ n → (∀ c ∈ rem, isPySpace c = true) →
      '\n' ∉ rem → splitChunks maxLen rem = [] := by
  intro n
  induction n with
  | zero =>
      intro rem hlen _ _
      have : rem = [] := List.eq_nil_of_length_eq_zero (Nat.le_zero.mp hlen)
      rw [this, splitChunks]
      simp
  | succ k ih =>
      intro rem hlen hws hnl
      by_cases hne : rem = []
      · rw [hne, splitChunks]; simp
      · have hce : chunkEnd maxLen rem = min maxLen rem.length := chunkEnd_noNN maxLen rem hnl
        have hpos : 0 < rem.length := List.length_pos.mpr hne
        have hnz : chunkEnd maxLen rem ≠ 0 := by rw [hce]; omega
        have hpart : rstripPy (rem.take (chunkEnd maxLen rem)) = [] :=
          rstripPy_allWS _ (fun c hc => hws c (List.take_subset _ _ hc))
        rw [splitChunks, dif_neg hne, dif_neg hnz, hpart, if_pos rfl]
        apply ih
        · have : 1 ≤ chunkEnd maxLen rem := Nat.one_le_iff_ne_zero.mpr hnz
          simp only [List.length_drop]
          omega
        · exact fun c hc => hws c (List.drop_subset _ _ hc)
        · exact fun hm => hnl (List.drop_subset _ _ hm)

/-- C8: the claim is false on the code — `_split_content_for_csv` right-strips
each chunk before emitting it and drops chunks that become empty, so a
100000-character string with no paragraph break does NOT always produce three
fields of lengths 40000/40000/20000: the all-space string of length 100000
(which contains no double-newline) produces NO fields at all. -/
theorem C8_counterexample :
    (List.replicate 100000 ' ').length = 100000 ∧
    '\n' ∉ List.replicate 100000 ' ' ∧
    split_content_for_csv (List.replicate 100000 ' ') 40000 = [] := by
  have hnl : '\n' ∉ List.replicate 100000 ' ' := by
    intro hm
    have := List.eq_of_mem_replicate hm
    simp at this
  refine ⟨by rw [List.length_replicate], hnl, ?_⟩
  have hws : ∀ c ∈ List.replicate 100000 ' ', isPySpace c = true := by
    intro c hc
    rw [List.eq_of_mem_replicate hc]
    rfl
  have hchunks : splitChunks 40000 (List.replicate 100000 ' ') = [] :=
    splitChunks_allWS 40000 (by omega) 100000 _ (by rw [List.length_replicate]) hws hnl
  rw [split_content_for_csv, if_neg (by rw [List.length_replicate]; omega), hchunks]
  rfl

/-- C8 (amended): for a 100000-character string with no paragraph break AND
no whitespace at all (so that the per-chunk right-strip is the identity),
`_split_content_for_csv` with max_len 40000 produces exactly the three fields
tartalom, tartalom_cont_1, tartalom_cont_2 of lengths 40000, 40000, 20000. -/
theorem C8_split_lengths (text : List Char) (hlen : text.length = 100000)
    (hws : ∀ c ∈ text, isPySpace c = false) :
    split_content_for_csv text 40000 =
      [("tartalom", text.take 40000),
       ("tartalom_cont_1", (text.drop 40000).take 40000),
       ("tartalom_cont_2", (text.drop 40000).drop 40000)] ∧
    (text.take 40000).length = 40000 ∧
    ((text.drop 40000).take 40000).length = 40000 ∧
    ((text.drop 40000).drop 40000).length = 20000 := by
  have hws1 : ∀ c ∈ text.drop 40000, isPySpace c = false :=
    fun c hc => hws c (List.drop_subset _ _ hc)
  have hws2 : ∀ c ∈ (text.drop 40000).drop 40000, isPySpace c = false :=
    fun c hc => hws1 c (List.drop_subset _ _ hc)
  have hl1 : (text.drop 40000).length = 60000 := by simp [hlen]
  have hl2 : ((text.drop 40000).drop 40000).length = 20000 := by
    simp only [List.length_drop]
    omega
  have hs1 : splitChunks 40000 text =
      text.take 40000 :: splitChunks 40000 (text.drop 40000) :=
    splitChunks_step_noWS 40000 text (by omega)
      (by intro he; rw [he] at hlen; simp at hlen) hws
  have hs2 : splitChunks 40000 (text.drop 40000) =
      (text.drop 40000).take 40000 :: splitChunks 40000 ((text.drop 40000).drop 40000) :=
    splitChunks_step_noWS 40000 _ (by omega)
      (by intro he; rw [he] at hl1; simp at hl1) hws1
  have hs3 : splitChunks 40000 ((text.drop 40000).drop 40000) =
      ((text.drop 40000).drop 40000).take 40000 ::
        splitChunks 40000 (((text.drop 40000).drop 40000).drop 40000) :=
    splitChunks_step_noWS 40000 _ (by omega)
      (by intro he; rw [he] at hl2; simp at hl2) hws2
  have htk3 : ((text.drop 40000).drop 40000).take 40000 = (text.drop 40000).drop 40000 :=
    List.take_of_length_le (by omega)
  have hdr3 : ((text.drop 40000).drop 40000).drop 40000 = [] :=
    List.drop_eq_nil_of_le (by omega)
  have hnil : splitChunks 40000 ([] : List Char) = [] := by rw [splitChunks]; simp
  refine ⟨?_, by simp [hlen], by simp [hl1], hl2⟩
  rw [split_content_for_csv, if_neg (by omega)]
  rw [hs1, hs2, hs3, htk3, hdr3, hnil]
  simp only [List.mapIdx_cons, List.mapIdx_nil]
  norm_num
  exact ⟨by decide, by decide⟩

/-- C8 witness: the amended statement applied to the length-100000 string of
letters a. -/
theorem C8_split_lengths_witness :
    (List.replicate 100000 'a').length = 100000 ∧
    split_content_for_csv (List.replicate 100000 'a') 40000 =
      [("tartalom", (List.replicate 100000 'a').take 40000),
       ("tartalom_cont_1", ((List.replicate 100000 'a').drop 40000).take 40000),
       ("tartalom_cont_2", ((List.replicate 100000 'a').drop 40000).drop 40000)] ∧
    ((List.replicate 100000 'a').take 40000).length = 40000 ∧
    (((List.replicate 100000 'a').drop 40000).drop 40000).length = 20000 := by
  have hlen : (List.replicate 100000 'a' : List Char).length = 100000 := by
    rw [List.length_replicate]
  have hws : ∀ c ∈ List.replicate 100000 'a', isPySpace c = false := by
    intro c hc
    rw [List.eq_of_mem_replicate hc]
    rfl
  have h := C8_split_lengths (List.replicate 100000 'a') hlen hws
  exact ⟨hlen, h.1, h.2.1, h.2.2.2⟩

theorem build_display_list_eq_fold (used : List (String × Nat))
    (names_seen : String → List String) (id2current : String → Option String) :
    build_display_list used names_seen id2current =
      pySortBy (fun a b => pyStrLe (pyLowerStr a.1) (pyLowerStr b.1))
        (bdlFold names_seen id2current used []) := rfl

theorem upsertMerge_mem_ne (m : List (String × Nat × Finset String)) (k : String)
    (c : Nat) (s : Finset String) (d : String) (x : Nat × Finset String) (hne : d ≠ k) :
    (d, x) ∈ upsertMerge m k c s ↔ (d, x) ∈ m := by
  induction m with
  | nil => simp [upsertMerge, hne]
  | cons p rest ih =>
      by_cases hp : p.1 = k
      · simp only [upsertMerge, hp, if_pos, List.mem_cons]
        constructor
        · rintro (he | hr)
          · exact absurd (congrArg Prod.fst he) hne
          · exact Or.inr hr
        · rintro (he | hr)
          · exact absurd ((congrArg Prod.fst he).trans hp) hne
          · exact Or.inr hr
      · simp only [upsertMerge, hp, if_false, ite_false, List.mem_cons, ih]

theorem upsertMerge_keys (m : List (String × Nat × Finset String)) (k : String)
    (c : Nat) (s : Finset String) :
    (upsertMerge m k c s).map (fun e => e.1) =
      if k ∈ m.map (fun e => e.1) then m.map (fun e => e.1)
      else m.map (fun e => e.1) ++ [k] := by
  induction m with
  | nil => simp [upsertMerge]
  | cons p rest ih =>
      by_cases hp : p.1 = k
      · simp [upsertMerge, hp]
      · simp only [upsertMerge, hp, if_false, ite_false, List.map_cons, ih]
        by_cases hk : k ∈ rest.map (fun e => e.1)
        · simp [hk, Ne.symm hp]
        · simp [hk, Ne.symm hp]

theorem upsertMerge_keys_subset (m : List (String × Nat × Finset String)) (k : String)
    (c : Nat) (s : Finset String) (x : String) (hx : x ∈ m.map (fun e => e.1)) :
    x ∈ (upsertMerge m k c s).map (fun e => e.1) := by
  rw [upsertMerge_keys]
  by_cases hk : k ∈ m.map (fun e => e.1)
  · simp [hk, hx]
  · simp [hk, hx]

theorem upsertMerge_key_mem (m : List (String × Nat × Finset String)) (k : String)
    (c : Nat) (s : Finset String) :
    k ∈ (upsertMerge m k c s).map (fun e => e.1) := by
  rw [upsertMerge_keys]
  by_cases hk : k ∈ m.map (fun e => e.1)
  · simp [hk]
  · simp [hk]

theorem upsertMerge_keys_nodup (m : List (String × Nat × Finset String)) (k : String)
    (c : Nat) (s : Finset String) (h : (m.map (fun e => e.1)).Nodup) :
    ((upsertMerge m k c s).map (fun e => e.1)).Nodup := by
  rw [upsertMerge_keys]
  by_cases hk : k ∈ m.map (fun e => e.1)
  · simpa [hk] using h
  · simp only [hk, if_false, ite_false]
    rw [List.nodup_append]
    exact ⟨h, List.nodup_singleton k, by simpa using hk⟩

theorem upsertMerge_of_not_mem (m : List (String × Nat × Finset String)) (k : String)
    (c : Nat) (s : Finset String) (h : k ∉ m.map (fun e => e.1)) :
    upsertMerge m k c s = m ++ [(k, c, s)] := by
  induction m with
  | nil => simp [upsertMerge]
  | cons p rest ih =>
      have hp : p.1 ≠ k := by
        intro he
        exact h (by simp [he])
      simp only [upsertMerge, hp, if_false, ite_false, List.cons_append]
      rw [ih (fun hm => h (by simp [hm]))]

theorem upsertMerge_at_key (m : List (String × Nat × Finset String)) (k : String)
    (c c0 : Nat) (s s0 : Finset String) (hnd : (m.map (fun e => e.1)).Nodup)
    (hm : (k, c0, s0) ∈ m) :
    ∀ x, (k, x) ∈ upsertMerge m k c s → x = (c0 + c, s0 ∪ s) := by
  induction m with
  | nil => simp at hm
  | cons p rest ih =>
      intro x hx
      by_cases hp : p.1 = k
      · have hpe : p = (k, c0, s0) := by
          rcases List.mem_cons.mp hm with he | hr
          · exact he.symm
          · exfalso
            have : k ∈ rest.map (fun e => e.1) := by
              exact List.mem_map.mpr ⟨(k, c0, s0), hr, rfl⟩
            rw [← hp] at this
            exact (List.nodup_cons.mp (by simpa using hnd)).1 this
        simp only [upsertMerge, hp, if_pos, List.mem_cons] at hx
        rcases hx with he | hr
        · have hx2 := congrArg Prod.snd he
          simp only at hx2
          rw [hpe] at hx2
          simp only at hx2
          exact hx2
        · exfalso
          have : k ∈ rest.map (fun e => e.1) := List.mem_map.mpr ⟨(k, x), hr, rfl⟩
          rw [← hp] at this
          exact (List.nodup_cons.mp (by simpa using hnd)).1 this
      · have hm' : (k, c0, s0) ∈ rest := by
          rcases List.mem_cons.mp hm with he | hr
          · exact absurd (congrArg Prod.fst he).symm hp
          · exact hr
        simp only [upsertMerge, hp, if_false, ite_false, List.mem_cons] at hx
        rcases hx with he | hr
        · exact absurd (congrArg Prod.fst he).symm hp
        · exact ih (List.nodup_cons.mp (by simpa using hnd)).2 hm' x hr

theorem sumForDisplay_cons (names_seen : String → List String)
    (id2current : String → Option String) (p : String × Nat) (rest : List (String × Nat))
    (d : String) :
    sumForDisplay names_seen id2current (p :: rest) d =
      (if displayOf names_seen id2current p.1 = d then p.2 else 0) +
      sumForDisplay names_seen id2current rest d := by
  by_cases hp : displayOf names_seen id2current p.1 = d
  · simp [sumForDisplay, List.filter_cons, hp]
  · simp [sumForDisplay, List.filter_cons, hp]

theorem displayEntry_fst (names_seen : String → List String)
    (id2current : String → Option String) (oid : String) :
    (displayEntry names_seen id2current oid).1 = displayOf names_seen id2current oid := rfl

theorem bdlFold_char (seen : String → List String) (cur : String → Option String) :
    ∀ (used : List (String × Nat)) (acc : List (String × Nat × Finset String)),
      (acc.map (fun e => e.1)).Nodup →
      ((bdlFold seen cur used acc).map (fun e => e.1)).Nodup ∧
      (∀ x ∈ acc.map (fun e => e.1), x ∈ (bdlFold seen cur used acc).map (fun e => e.1)) ∧
      (∀ p ∈ used, displayOf seen cur p.1 ∈ (bdlFold seen cur used acc).map (fun e => e.1)) ∧
      (∀ d cnt canon, (d, cnt, canon) ∈ bdlFold seen cur used acc →
        ((∃ c0 s0, (d, c0, s0) ∈ acc ∧ cnt = c0 + sumForDisplay seen cur used d ∧ s0 ⊆ canon) ∨
         (d ∉ acc.map (fun e => e.1) ∧ cnt = sumForDisplay seen cur used d)) ∧
        (∀ p ∈ used, displayOf seen cur p.1 = d → (displayEntry seen cur p.1).2 ⊆ canon)) := by
  intro used
  induction used with
  | nil =>
      intro acc hnd
      refine ⟨hnd, fun x hx => hx, by simp, ?_⟩
      intro d cnt canon hm
      exact ⟨Or.inl ⟨cnt, canon, hm, by simp [sumForDisplay], subset_rfl⟩, by simp⟩
  | cons p rest ih =>
      intro acc hnd
      have hstep : bdlFold seen cur (p :: rest) acc =
          bdlFold seen cur rest
            (upsertMerge acc (displayOf seen cur p.1) p.2 (displayEntry seen cur p.1).2) := rfl
      have hnd' := upsertMerge_keys_nodup acc (displayOf seen cur p.1) p.2
        (displayEntry seen cur p.1).2 hnd
      obtain ⟨ihnd, ihacc, ihused, ihchar⟩ := ih _ hnd'
      rw [hstep]
      refine ⟨ihnd, ?_, ?_, ?_⟩
      · intro x hx
        exact ihacc x (upsertMerge_keys_subset acc _ p.2 _ x hx)
      · intro q hq
        rcases List.mem_cons.mp hq with he | hr
        · rw [he]
          exact ihacc _ (upsertMerge_key_mem acc _ p.2 _)
        · exact ihused q hr
      · intro d cnt canon hm
        obtain ⟨hdisj, hcanon⟩ := ihchar d cnt canon hm
        have hsc := sumForDisplay_cons seen cur p rest d
        by_cases hddp : d = displayOf seen cur p.1
        · have hif : (if displayOf seen cur p.1 = d then p.2 else 0) = p.2 :=
            if_pos hddp.symm
          by_cases hk : d ∈ acc.map (fun e => e.1)
          · obtain ⟨e0, he0, hek⟩ := List.mem_map.mp hk
            have he0' : (d, e0.2.1, e0.2.2) ∈ acc := by
              have hsplit : e0 = (e0.1, e0.2.1, e0.2.2) := rfl
              rw [← hek]
              exact hsplit ▸ he0
            have he0'' : (displayOf seen cur p.1, e0.2.1, e0.2.2) ∈ acc := hddp ▸ he0'
            rcases hdisj with ⟨c0', s0', hm', hcnt', hsub'⟩ | ⟨hnk', _⟩
            · have hm'' : (displayOf seen cur p.1, c0', s0') ∈
                  upsertMerge acc (displayOf seen cur p.1) p.2 (displayEntry seen cur p.1).2 :=
                hddp ▸ hm'
              have huniq := upsertMerge_at_key acc (displayOf seen cur p.1) p.2 e0.2.1
                (displayEntry seen cur p.1).2 e0.2.2 hnd he0'' (c0', s0') hm''
              have hc0 : c0' = e0.2.1 + p.2 := congrArg Prod.fst huniq
              have hs0 : s0' = e0.2.2 ∪ (displayEntry seen cur p.1).2 :=
                congrArg Prod.snd huniq
              constructor
              · refine Or.inl ⟨e0.2.1, e0.2.2, he0', ?_, ?_⟩
                · rw [hsc, hif, hcnt', hc0]
                  omega
                · refine subset_trans ?_ hsub'
                  rw [hs0]
                  exact Finset.subset_union_left
              · intro q hq hdq
                rcases List.mem_cons.mp hq with he | hr
                · rw [he]
                  refine subset_trans ?_ hsub'
                  rw [hs0]
                  exact Finset.subset_union_right
                · exact hcanon q hr hdq
            · exfalso
              apply hnk'
              rw [hddp]
              exact upsertMerge_key_mem acc _ p.2 _
          · have hk' : displayOf seen cur p.1 ∉ acc.map (fun e => e.1) := hddp ▸ hk
            have hacc'eq : upsertMerge acc (displayOf seen cur p.1) p.2
                (displayEntry seen cur p.1).2 =
                acc ++ [(displayOf seen cur p.1, p.2, (displayEntry seen cur p.1).2)] :=
              upsertMerge_of_not_mem acc _ p.2 _ hk'
            rcases hdisj with ⟨c0', s0', hm', hcnt', hsub'⟩ | ⟨hnk', _⟩
            · rw [hacc'eq] at hm'
              rcases List.mem_append.mp hm' with hin | hin
              · exfalso
                apply hk
                exact List.mem_map.mpr ⟨(d, c0', s0'), hin, rfl⟩
              · have heq : (d, c0', s0') =
                    (displayOf seen cur p.1, p.2, (displayEntry seen cur p.1).2) := by
                  simpa using hin
                have hc0 : c0' = p.2 := by
                  have h2 := congrArg (fun z => z.2.1) heq
                  simpa using h2
                have hs0 : s0' = (displayEntry seen cur p.1).2 := by
                  have h2 := congrArg (fun z => z.2.2) heq
                  simpa using h2
                constructor
                · refine Or.inr ⟨hk, ?_⟩
                  rw [hsc, hif, hcnt', hc0]
                · intro q hq hdq
                  rcases List.mem_cons.mp hq with he | hr
                  · rw [he]
                    rw [hs0] at hsub'
                    exact hsub'
                  · exact hcanon q hr hdq
            · exfalso
              apply hnk'
              rw [hddp]
              exact upsertMerge_key_mem acc _ p.2 _
        · have hif : (if displayOf seen cur p.1 = d then p.2 else 0) = 0 :=
            if_neg (fun he => hddp he.symm)
          have hsum : sumForDisplay seen cur (p :: rest) d =
              sumForDisplay seen cur rest d := by
            rw [hsc, hif]
            omega
          constructor
          · rcases hdisj with ⟨c0', s0', hm', hcnt', hsub'⟩ | ⟨hnk', hcnt'⟩
            · have hm'' : (d, c0', s0') ∈ acc :=
                (upsertMerge_mem_ne acc _ p.2 _ d (c0', s0') hddp).mp hm'
              exact Or.inl ⟨c0', s0', hm'', by rw [hsum]; exact hcnt', hsub'⟩
            · refine Or.inr ⟨?_, by rw [hsum]; exact hcnt'⟩
              intro hdk
              exact hnk' (upsertMerge_keys_subset acc _ p.2 _ d hdk)
          · intro q hq hdq
            rcases List.mem_cons.mp hq with he | hr
            · exfalso
              rw [he] at hdq
              exact hddp hdq.symm
            · exact hcanon q hr hdq

/-- C7: the claim is false on the code.  In the claimed scenario the option
id named "Uzleti modellek" is NOT in the alias table (only the accented
spelling "Üzleti Modellek" is), so its display name stays "Uzleti modellek"
and `build_display_list` produces TWO display groups — ("Milyen vállalkozást
indíts", 3) and ("Uzleti modellek", 1) — instead of one merged group of
count 4; moreover the canonical set of the aliased group is just
the accented spelling: it does not contain the display name itself. -/
theorem C7_counterexample :
    build_display_list [("o1", 3), ("o2", 1)]
        (fun oid => if oid = "o1" then ["Üzleti Modellek"]
          else if oid = "o2" then ["Uzleti modellek"] else [])
        (fun oid => if oid = "o1" then some "Üzleti Modellek"
          else if oid = "o2" then some "Uzleti modellek" else none) =
      [("Milyen vállalkozást indíts", 3, {"Üzleti Modellek"}),
       ("Uzleti modellek", 1, {"Uzleti modellek"})] ∧
    "Milyen vállalkozást indíts" ∉
      ({"Üzleti Modellek"} : Finset String) := by
  constructor
  · decide
  · decide

/-- C7 (amended): option ids resolving to the same display name are merged
into a single Display Group (display names are pairwise distinct in the
output) whose count is the sum of the merged ids' counts, and whose
canonical set contains, for every merged id, its current name, all its
observed historical names, and every alias-table old name mapping to the
display name; the display name itself is in the canonical set only when it
arises through one of those three routes.  In the spec's scenario the two
spellings merge only if both appear in the alias table; with the code's
table they form two separate groups. -/
theorem C7_alias_merging (used : List (String × Nat)) (seen : String → List String)
    (cur : String → Option String) :
    ((build_display_list used seen cur).map (fun e => e.1)).Nodup ∧
    (∀ d cnt canon, (d, cnt, canon) ∈ build_display_list used seen cur →
      cnt = sumForDisplay seen cur used d ∧
      (∀ p ∈ used, displayOf seen cur p.1 = d →
        currentNameOf seen cur p.1 ∈ canon ∧ (seen p.1).toFinset ⊆ canon ∧
        reverseAlias d ⊆ canon)) ∧
    (∀ p ∈ used, ∃ cnt canon,
      (displayOf seen cur p.1, cnt, canon) ∈ build_display_list used seen cur) := by
  obtain ⟨hnd, _, hcover, hchar⟩ := bdlFold_char seen cur used [] (by simp)
  have hperm := pySortBy_perm (fun a b => pyStrLe (pyLowerStr a.1) (pyLowerStr b.1))
    (bdlFold seen cur used [])
  rw [build_display_list_eq_fold]
  refine ⟨?_, ?_, ?_⟩
  · exact ((hperm.map (fun e => e.1)).nodup_iff).mpr hnd
  · intro d cnt canon hm
    have hm' : (d, cnt, canon) ∈ bdlFold seen cur used [] := hperm.mem_iff.mp hm
    obtain ⟨hdisj, hcanon⟩ := hchar d cnt canon hm'
    refine ⟨?_, ?_⟩
    · rcases hdisj with ⟨c0, s0, h0, _, _⟩ | ⟨_, hcnt⟩
      · simp at h0
      · exact hcnt
    · intro p hp hdp
      have hsub := hcanon p hp hdp
      have hent : (displayEntry seen cur p.1).2 =
          insert (currentNameOf seen cur p.1)
            ((seen p.1).toFinset ∪ reverseAlias (displayOf seen cur p.1)) := rfl
      rw [hent, hdp] at hsub
      refine ⟨hsub (Finset.mem_insert_self _ _), ?_, ?_⟩
      · exact fun x hx => hsub (Finset.mem_insert_of_mem (Finset.mem_union_left _ hx))
      · exact fun x hx => hsub (Finset.mem_insert_of_mem (Finset.mem_union_right _ hx))
  · intro p hp
    have hk := hcover p hp
    obtain ⟨e, he, hek⟩ := List.mem_map.mp hk
    refine ⟨e.2.1, e.2.2, ?_⟩
    have hesplit : e = (e.1, e.2.1, e.2.2) := rfl
    rw [← hek]
    exact hperm.mem_iff.mpr (hesplit ▸ he)

/-- C7 witness: the amended statement applied at the spec's scenario data —
the Display Group resolved from the aliased option id exists with its
summed count. -/
theorem C7_alias_merging_witness :
    ∃ cnt canon,
      ("Milyen vállalkozást indíts", cnt, canon) ∈
        build_display_list [("o1", 3), ("o2", 1)]
          (fun oid => if oid = "o1" then ["Üzleti Modellek"] else ["Uzleti modellek"])
          (fun oid => if oid = "o1" then some "Üzleti Modellek"
            else some "Uzleti modellek") := by
  have h := (C7_alias_merging [("o1", 3), ("o2", 1)]
      (fun oid => if oid = "o1" then ["Üzleti Modellek"] else ["Uzleti modellek"])
      (fun oid => if oid = "o1" then some "Üzleti Modellek"
        else some "Uzleti modellek")).2.2 ("o1", 3) (by decide)
  have hd : displayOf
      (fun oid => if oid = "o1" then ["Üzleti Modellek"] else ["Uzleti modellek"])
      (fun oid => if oid = "o1" then some "Üzleti Modellek"
        else some "Uzleti modellek") ("o1", 3).1 = "Milyen vállalkozást indíts" := by decide
  rw [hd] at h
  exact h

theorem mem_insertStr (x y : String) (l : List String) :
    y ∈ insertStr x l ↔ y = x ∨ y ∈ l := by
  induction l with
  | nil => simp [insertStr]
  | cons z zs ih =>
      by_cases hxz : x = z
      · subst hxz
        simp [insertStr]
        try tauto
      · by_cases hle : pyStrLe x z
        · simp [insertStr, hxz, hle]
          try tauto
        · simp only [insertStr, hxz, if_false, ite_false, hle, Bool.false_eq_true,
            List.mem_cons, ih]
          try tauto

theorem length_insertStr_not_mem (x : String) (l : List String) (h : x ∉ l) :
    (insertStr x l).length = l.length + 1 := by
  induction l with
  | nil => simp [insertStr]
  | cons z zs ih =>
      have hxz : x ≠ z := fun he => h (he ▸ List.mem_cons_self z zs)
      by_cases hle : pyStrLe x z
      · simp [insertStr, hxz, hle]
      · simp only [insertStr, hxz, if_false, ite_false, hle, Bool.false_eq_true,
          List.length_cons]
        rw [ih (fun hm => h (List.mem_cons_of_mem z hm))]

theorem nodup_insertStr (x : String) (l : List String) (h : l.Nodup) (hx : x ∉ l) :
    (insertStr x l).Nodup := by
  induction l with
  | nil => simp [insertStr]
  | cons z zs ih =>
      have hxz : x ≠ z := fun he => hx (he ▸ List.mem_cons_self z zs)
      obtain ⟨hz, hzs⟩ := List.nodup_cons.mp h
      by_cases hle : pyStrLe x z
      · have hrw : insertStr x (z :: zs) = x :: z :: zs := by
          simp [insertStr, hxz, hle]
        rw [hrw]
        exact List.nodup_cons.mpr ⟨hx, h⟩
      · simp only [insertStr, hxz, if_false, ite_false, hle, Bool.false_eq_true]
        refine List.nodup_cons.mpr ⟨?_, ih hzs (fun hm => hx (List.mem_cons_of_mem z hm))⟩
        intro hm
        rcases (mem_insertStr x z zs).mp hm with he | he
        · exact hxz he.symm
        · exact hz he

theorem mem_insAllStr (base xs : List String) (y : String) :
    y ∈ insAllStr base xs ↔ y ∈ base ∨ y ∈ xs := by
  induction xs generalizing base with
  | nil => simp [insAllStr]
  | cons x rest ih =>
      show y ∈ insAllStr (insertStr x base) rest ↔ _
      rw [ih, mem_insertStr]
      simp [List.mem_cons]
      tauto

theorem length_insAllStr (base xs : List String) (hnd : xs.Nodup)
    (hdis : ∀ x ∈ xs, x ∉ base) :
    (insAllStr base xs).length = base.length + xs.length := by
  induction xs generalizing base with
  | nil => simp [insAllStr]
  | cons x rest ih =>
      obtain ⟨hx, hrest⟩ := List.nodup_cons.mp hnd
      show (insAllStr (insertStr x base) rest).length = _
      rw [ih (insertStr x base) hrest]
      · rw [length_insertStr_not_mem x base (hdis x (List.mem_cons_self x rest))]
        simp
        omega
      · intro z hz hmem
        rcases (mem_insertStr x z base).mp hmem with he | he
        · exact hx (he ▸ hz)
        · exact hdis z (List.mem_cons_of_mem x hz) he

theorem nodup_insAllStr (base xs : List String) (hnd : xs.Nodup) (hbase : base.Nodup)
    (hdis : ∀ x ∈ xs, x ∉ base) :
    (insAllStr base xs).Nodup := by
  induction xs generalizing base with
  | nil => simpa [insAllStr] using hbase
  | cons x rest ih =>
      obtain ⟨hx, hrest⟩ := List.nodup_cons.mp hnd
      show (insAllStr (insertStr x base) rest).Nodup
      refine ih (insertStr x base) hrest
        (nodup_insertStr x base hbase (hdis x (List.mem_cons_self x rest))) ?_
      intro z hz hmem
      rcases (mem_insertStr x z base).mp hmem with he | he
      · exact hx (he ▸ hz)
      · exact hdis z (List.mem_cons_of_mem x hz) he

theorem containsStr_false (l : List String) (x : String) (h : x ∉ l) :
    l.contains x = false := by
  cases hc : l.contains x
  · rfl
  · exact absurd ((contains_iff_memStr l x).mp hc) h

theorem zipStep_skip {β : Type} (O : String → Nat → Except PyErr β) (s : ZipSt β)
    (g : ExpGroup) (h : g.1 ∈ s.completed) : zipStep O s g = s := by
  unfold zipStep
  rw [if_pos ((contains_iff_memStr _ _).mpr h)]

theorem zipStep_not_skip {β : Type} (O : String → Nat → Except PyErr β) (s : ZipSt β)
    (g : ExpGroup) (h : g.1 ∉ s.completed) :
    zipStep O s g =
      (match (retry_export_one (O g.1)).1.1 with
       | none =>
           { s with
             retries := s.retries + (retry_export_one (O g.1)).1.2
             log := s.log ++ [g.1]
             failed := insertStr g.1 s.failed }
       | some data =>
           { s with
             retries := s.retries + (retry_export_one (O g.1)).1.2
             log := s.log ++ [g.1]
             files := upsertFile s.files (fileNameFor g.1) data
             completed := insertStr g.1 s.completed
             failed := (if s.failed.contains g.1 then removeStr g.1 s.failed else s.failed) }) := by
  have hc : s.completed.contains g.1 = false := containsStr_false _ _ h
  unfold zipStep
  rw [if_neg (by rw [hc]; exact Bool.false_ne_true)]

theorem zipStep_fields {β : Type} (O : String → Nat → Except PyErr β) (s : ZipSt β)
    (g : ExpGroup) (h : g.1 ∉ s.completed) :
    (zipStep O s g).log = s.log ++ [g.1] ∧
    (zipStep O s g).total = s.total ∧
    (∀ x ∈ s.completed, x ∈ (zipStep O s g).completed) ∧
    (∀ x ∈ (zipStep O s g).completed, x ∈ s.completed ∨ x = g.1) := by
  rw [zipStep_not_skip O s g h]
  rcases hr : (retry_export_one (O g.1)).1.1 with _ | d
  · exact ⟨rfl, rfl, fun x hx => hx, fun x hx => Or.inl hx⟩
  · refine ⟨rfl, rfl, ?_, ?_⟩
    · intro x hx
      exact (mem_insertStr g.1 x s.completed).mpr (Or.inr hx)
    · intro x hx
      rcases (mem_insertStr g.1 x s.completed).mp hx with he | he
      · exact Or.inr he
      · exact Or.inl he

theorem zipLoop_skip {β : Type} (O : String → Nat → Except PyErr β) :
    ∀ (gs : List ExpGroup) (s : ZipSt β), (∀ g ∈ gs, g.1 ∈ s.completed) →
      export_engine_loop O s gs = s := by
  intro gs
  induction gs with
  | nil => intro s _; rfl
  | cons g rest ih =>
      intro s h
      show export_engine_loop O (zipStep O s g) rest = s
      rw [zipStep_skip O s g (h g (List.mem_cons_self g rest))]
      exact ih s (fun q hq => h q (List.mem_cons_of_mem g hq))

theorem zipLoop_log {β : Type} (O : String → Nat → Except PyErr β) :
    ∀ (gs : List ExpGroup) (s : ZipSt β),
      ∃ δ, (export_engine_loop O s gs).log = s.log ++ δ ∧ ∀ x ∈ δ, x ∉ s.completed := by
  intro gs
  induction gs with
  | nil => intro s; exact ⟨[], by simp [export_engine_loop], by simp⟩
  | cons g rest ih =>
      intro s
      by_cases h : g.1 ∈ s.completed
      · show ∃ δ, (export_engine_loop O (zipStep O s g) rest).log = _ ∧ _
        rw [zipStep_skip O s g h]
        exact ih s
      · obtain ⟨hlog, _, hmono, _⟩ := zipStep_fields O s g h
        obtain ⟨δ', hδ'log, hδ'⟩ := ih (zipStep O s g)
        refine ⟨g.1 :: δ', ?_, ?_⟩
        · show (export_engine_loop O (zipStep O s g) rest).log = _
          rw [hδ'log, hlog]
          simp
        · intro x hx
          rcases List.mem_cons.mp hx with he | he
          · exact he ▸ h
          · intro hxc
            exact hδ' x he (hmono x hxc)

theorem zipLoop_failed_retried {β : Type} (O : String → Nat → Except PyErr β) (g : String) :
    ∀ (gs : List ExpGroup) (s : ZipSt β), g ∉ s.completed →
      g ∈ gs.map (fun e => e.1) →
      ∃ δ, (export_engine_loop O s gs).log = s.log ++ δ ∧ g ∈ δ := by
  intro gs
  induction gs with
  | nil => intro s _ hm; simp at hm
  | cons q rest ih =>
      intro s hg hm
      by_cases hq : q.1 = g
      · have hns : q.1 ∉ s.completed := hq ▸ hg
        obtain ⟨hlog, _, _, _⟩ := zipStep_fields O s q hns
        obtain ⟨δ', hδ'log, _⟩ := zipLoop_log O rest (zipStep O s q)
        refine ⟨q.1 :: δ', ?_, by simp [hq]⟩
        show (export_engine_loop O (zipStep O s q) rest).log = _
        rw [hδ'log, hlog]
        simp
      · have hm' : g ∈ rest.map (fun e => e.1) := by
          rcases List.mem_map.mp hm with ⟨e, he, hek⟩
          rcases List.mem_cons.mp he with hh | hh
          · exact absurd (hh ▸ hek) hq
          · exact List.mem_map.mpr ⟨e, hh, hek⟩
        by_cases hskip : q.1 ∈ s.completed
        · show ∃ δ, (export_engine_loop O (zipStep O s q) rest).log = _ ∧ _
          rw [zipStep_skip O s q hskip]
          exact ih s hg hm'
        · obtain ⟨hlog, _, _, hsub⟩ := zipStep_fields O s q hskip
          have hg' : g ∉ (zipStep O s q).completed := by
            intro hc
            rcases hsub g hc with hc' | hc'
            · exact hg hc'
            · exact hq hc'.symm
          obtain ⟨δ', hδ'log, hδ'mem⟩ := ih (zipStep O s q) hg' hm'
          refine ⟨q.1 :: δ', ?_, List.mem_cons_of_mem _ hδ'mem⟩
          show (export_engine_loop O (zipStep O s q) rest).log = _
          rw [hδ'log, hlog]
          simp

theorem zipLoop_success {β : Type} (O : String → Nat → Except PyErr β) (R : String → β) :
    ∀ (gs : List ExpGroup) (s : ZipSt β),
      (∀ gp ∈ gs, O gp.1 0 = .ok (R gp.1)) →
      (gs.map (fun e => e.1)).Nodup →
      (∀ gp ∈ gs, gp.1 ∉ s.completed) →
      s.failed = [] →
      (export_engine_loop O s gs).completed = insAllStr s.completed (gs.map (fun e => e.1)) ∧
      (export_engine_loop O s gs).log = s.log ++ gs.map (fun e => e.1) ∧
      (export_engine_loop O s gs).failed = [] ∧
      (export_engine_loop O s gs).total = s.total := by
  intro gs
  induction gs with
  | nil =>
      intro s _ _ _ hf
      exact ⟨rfl, by simp [export_engine_loop], hf, rfl⟩
  | cons g rest ih =>
      intro s hO hnd hfresh hf
      have hc : s.completed.contains g.1 = false :=
        containsStr_false _ _ (hfresh g (List.mem_cons_self g rest))
      have hro : retry_export_one (O g.1) = ((some (R g.1), 0), []) :=
        retry_export_ok (O g.1) (R g.1) (hO g (List.mem_cons_self g rest))
      have hfc : s.failed.contains g.1 = false := by rw [hf]; rfl
      have hstep : zipStep O s g =
          { s with
            retries := s.retries + 0
            log := s.log ++ [g.1]
            files := upsertFile s.files (fileNameFor g.1) (R g.1)
            completed := insertStr g.1 s.completed } := by
        rw [zipStep_not_skip O s g (hfresh g (List.mem_cons_self g rest)), hro, hf]
        rfl
      rw [List.map_cons] at hnd
      obtain ⟨hnd1, hnd2⟩ := List.nodup_cons.mp hnd
      have hres := ih { s with
            retries := s.retries + 0
            log := s.log ++ [g.1]
            files := upsertFile s.files (fileNameFor g.1) (R g.1)
            completed := insertStr g.1 s.completed }
        (fun q hq => hO q (List.mem_cons_of_mem g hq)) hnd2
        (by
          intro q hq hqc
          rcases (mem_insertStr g.1 q.1 s.completed).mp hqc with he | he
          · exact hnd1 (he ▸ List.mem_map.mpr ⟨q, hq, rfl⟩)
          · exact hfresh q (List.mem_cons_of_mem g hq) he)
        hf
      have hloop : export_engine_loop O s (g :: rest) =
          export_engine_loop O (zipStep O s g) rest := rfl
      rw [hloop, hstep]
      refine ⟨?_, ?_, hres.2.2.1, hres.2.2.2⟩
      · rw [hres.1]
        rfl
      · rw [hres.2.1]
        simp

theorem isEmpty_false_of_ne {ρ : Type} (l : List ρ) (h : l ≠ []) : l.isEmpty = false := by
  cases l with
  | nil => exact absurd rfl h
  | cons a as => rfl

theorem uniStep_skip {ρ : Type} (O : String → Nat → Except PyErr (List ρ))
    (comp0 fail0 : List String) (s : UniSt ρ) (g : ExpGroup)
    (h : g.1 ∈ comp0 ∨ g.1 ∈ fail0) : uniStep O comp0 fail0 s g = s := by
  unfold uniStep
  rcases h with h | h
  · rw [if_pos ((contains_iff_memStr _ _).mpr h)]
  · by_cases hc : comp0.contains g.1 = true
    · rw [if_pos hc]
    · rw [if_neg hc, if_pos ((contains_iff_memStr _ _).mpr h)]

theorem uniStep_not_skip {ρ : Type} (O : String → Nat → Except PyErr (List ρ))
    (comp0 fail0 : List String) (s : UniSt ρ) (g : ExpGroup)
    (h1 : g.1 ∉ comp0) (h2 : g.1 ∉ fail0) :
    uniStep O comp0 fail0 s g =
      (if (retry_build_rows (O g.1)).1.1.isEmpty then
        { s with
          retries := s.retries + (retry_build_rows (O g.1)).1.2
          log := s.log ++ [g.1]
          failed := insertStr g.1 s.failed }
       else
        { s with
          retries := s.retries + (retry_build_rows (O g.1)).1.2
          log := s.log ++ [g.1]
          ndjson := s.ndjson ++ (retry_build_rows (O g.1)).1.1
          rowsWritten := s.rowsWritten + (retry_build_rows (O g.1)).1.1.length
          completed := insertStr g.1 s.completed
          failed := (if s.failed.contains g.1 then removeStr g.1 s.failed
            else s.failed) }) := by
  have hc1 : comp0.contains g.1 = false := containsStr_false _ _ h1
  have hc2 : fail0.contains g.1 = false := containsStr_false _ _ h2
  unfold uniStep
  rw [if_neg (by rw [hc1]; exact Bool.false_ne_true),
    if_neg (by rw [hc2]; exact Bool.false_ne_true)]

theorem uniLoop_skip {ρ : Type} (O : String → Nat → Except PyErr (List ρ))
    (comp0 fail0 : List String) :
    ∀ (gs : List ExpGroup) (s : UniSt ρ), (∀ g ∈ gs, g.1 ∈ comp0 ∨ g.1 ∈ fail0) →
      unified_engine_loop O comp0 fail0 s gs = s := by
  intro gs
  induction gs with
  | nil => intro s _; rfl
  | cons g rest ih =>
      intro s h
      show unified_engine_loop O comp0 fail0 (uniStep O comp0 fail0 s g) rest = s
      rw [uniStep_skip O comp0 fail0 s g (h g (List.mem_cons_self g rest))]
      exact ih s (fun q hq => h q (List.mem_cons_of_mem g hq))

theorem uniLoop_congr {ρ : Type} (O : String → Nat → Except PyErr (List ρ))
    (c0 f0 c0' f0' : List String) :
    ∀ (gs : List ExpGroup) (s : UniSt ρ),
      (∀ g ∈ gs, g.1 ∉ c0 ∧ g.1 ∉ f0 ∧ g.1 ∉ c0' ∧ g.1 ∉ f0') →
      unified_engine_loop O c0 f0 s gs = unified_engine_loop O c0' f0' s gs := by
  intro gs
  induction gs with
  | nil => intro s _; rfl
  | cons g rest ih =>
      intro s h
      obtain ⟨h1, h2, h3, h4⟩ := h g (List.mem_cons_self g rest)
      show unified_engine_loop O c0 f0 (uniStep O c0 f0 s g) rest = _
      rw [uniStep_not_skip O c0 f0 s g h1 h2, ← uniStep_not_skip O c0' f0' s g h3 h4]
      exact ih _ (fun q hq => h q (List.mem_cons_of_mem g hq))

theorem uniStep_log_not_skip {ρ : Type} (O : String → Nat → Except PyErr (List ρ))
    (comp0 fail0 : List String) (s : UniSt ρ) (g : ExpGroup)
    (h1 : g.1 ∉ comp0) (h2 : g.1 ∉ fail0) :
    (uniStep O comp0 fail0 s g).log = s.log ++ [g.1] := by
  rw [uniStep_not_skip O comp0 fail0 s g h1 h2]
  by_cases he : (retry_build_rows (O g.1)).1.1.isEmpty
  · rw [if_pos he]
  · rw [if_neg he]

theorem uniLoop_log {ρ : Type} (O : String → Nat → Except PyErr (List ρ))
    (comp0 fail0 : List String) :
    ∀ (gs : List ExpGroup) (s : UniSt ρ),
      ∃ δ, (unified_engine_loop O comp0 fail0 s gs).log = s.log ++ δ ∧
        ∀ x ∈ δ, x ∉ comp0 ∧ x ∉ fail0 := by
  intro gs
  induction gs with
  | nil => intro s; exact ⟨[], by simp [unified_engine_loop], by simp⟩
  | cons g rest ih =>
      intro s
      by_cases h : g.1 ∈ comp0 ∨ g.1 ∈ fail0
      · show ∃ δ, (unified_engine_loop O comp0 fail0 (uniStep O comp0 fail0 s g) rest).log = _ ∧ _
        rw [uniStep_skip O comp0 fail0 s g h]
        exact ih s
      · push_neg at h
        obtain ⟨δ', hδ'log, hδ'⟩ := ih (uniStep O comp0 fail0 s g)
        refine ⟨g.1 :: δ', ?_, ?_⟩
        · show (unified_engine_loop O comp0 fail0 (uniStep O comp0 fail0 s g) rest).log = _
          rw [hδ'log, uniStep_log_not_skip O comp0 fail0 s g h.1 h.2]
          simp
        · intro x hx
          rcases List.mem_cons.mp hx with he | he
          · exact he ▸ ⟨h.1, h.2⟩
          · exact hδ' x he

theorem uniLoop_failed_persist {ρ : Type} (O : String → Nat → Except PyErr (List ρ))
    (comp0 fail0 : List String) (g : String) :
    ∀ (gs : List ExpGroup) (s : UniSt ρ), g ∈ s.failed → g ∈ fail0 →
      g ∈ (unified_engine_loop O comp0 fail0 s gs).failed := by
  intro gs
  induction gs with
  | nil => intro s h _; exact h
  | cons q rest ih =>
      intro s h hf0
      by_cases hskip : q.1 ∈ comp0 ∨ q.1 ∈ fail0
      · show g ∈ (unified_engine_loop O comp0 fail0 (uniStep O comp0 fail0 s q) rest).failed
        rw [uniStep_skip O comp0 fail0 s q hskip]
        exact ih s h hf0
      · push_neg at hskip
        have hq : q.1 ≠ g := fun he => hskip.2 (he ▸ hf0)
        refine ih (uniStep O comp0 fail0 s q) ?_ hf0
        rw [uniStep_not_skip O comp0 fail0 s q hskip.1 hskip.2]
        by_cases he : (retry_build_rows (O q.1)).1.1.isEmpty
        · rw [if_pos he]
          exact (mem_insertStr q.1 g s.failed).mpr (Or.inr h)
        · rw [if_neg he]
          by_cases hfc : s.failed.contains q.1 = true
          · simp only [hfc, if_pos, if_true]
            refine List.mem_filter.mpr ⟨h, ?_⟩
            simp [Ne.symm hq]
          · simp only [hfc]
            simp only [Bool.false_eq_true, if_false, ite_false]
            exact h

theorem uniLoop_failed_persist2 {ρ : Type} (O : String → Nat → Except PyErr (List ρ))
    (comp0 fail0 : List String) (g : String) :
    ∀ (gs : List ExpGroup) (s : UniSt ρ), g ∈ s.failed →
      g ∉ gs.map (fun e => e.1) →
      g ∈ (unified_engine_loop O comp0 fail0 s gs).failed := by
  intro gs
  induction gs with
  | nil => intro s h _; exact h
  | cons q rest ih =>
      intro s h hnm
      have hq : q.1 ≠ g := fun he => hnm (by simp [he])
      have hnm' : g ∉ rest.map (fun e => e.1) := fun hm => hnm (by simp [hm])
      by_cases hskip : q.1 ∈ comp0 ∨ q.1 ∈ fail0
      · show g ∈ (unified_engine_loop O comp0 fail0 (uniStep O comp0 fail0 s q) rest).failed
        rw [uniStep_skip O comp0 fail0 s q hskip]
        exact ih s h hnm'
      · push_neg at hskip
        refine ih (uniStep O comp0 fail0 s q) ?_ hnm'
        rw [uniStep_not_skip O comp0 fail0 s q hskip.1 hskip.2]
        by_cases he : (retry_build_rows (O q.1)).1.1.isEmpty
        · rw [if_pos he]
          exact (mem_insertStr q.1 g s.failed).mpr (Or.inr h)
        · rw [if_neg he]
          by_cases hfc : s.failed.contains q.1 = true
          · simp only [hfc, if_pos, if_true]
            refine List.mem_filter.mpr ⟨h, ?_⟩
            simp [Ne.symm hq]
          · simp only [hfc, Bool.false_eq_true, if_false, ite_false]
            exact h

theorem uniLoop_success {ρ : Type} (O : String → Nat → Except PyErr (List ρ))
    (R : String → List ρ) (comp0 fail0 : List String) :
    ∀ (gs : List ExpGroup) (s : UniSt ρ),
      (∀ gp ∈ gs, O gp.1 0 = .ok (R gp.1) ∧ R gp.1 ≠ []) →
      (∀ gp ∈ gs, gp.1 ∉ comp0 ∧ gp.1 ∉ fail0) →
      s.failed = [] →
      (unified_engine_loop O comp0 fail0 s gs).completed =
        insAllStr s.completed (gs.map (fun e => e.1)) ∧
      (unified_engine_loop O comp0 fail0 s gs).log = s.log ++ gs.map (fun e => e.1) ∧
      (unified_engine_loop O comp0 fail0 s gs).failed = [] ∧
      (unified_engine_loop O comp0 fail0 s gs).total = s.total := by
  intro gs
  induction gs with
  | nil =>
      intro s _ _ hf
      exact ⟨rfl, by simp [unified_engine_loop], hf, rfl⟩
  | cons g rest ih =>
      intro s hO hfresh hf
      obtain ⟨hok, hne⟩ := hO g (List.mem_cons_self g rest)
      obtain ⟨hnc, hnf⟩ := hfresh g (List.mem_cons_self g rest)
      have hro : retry_build_rows (O g.1) = ((R g.1, 0), []) :=
        retry_build_ok (O g.1) (R g.1) hok
      have hre : (retry_build_rows (O g.1)).1.1 = R g.1 := by rw [hro]
      have hrc : (retry_build_rows (O g.1)).1.2 = 0 := by rw [hro]
      have hstep : uniStep O comp0 fail0 s g =
          { s with
            retries := s.retries + 0
            log := s.log ++ [g.1]
            ndjson := s.ndjson ++ R g.1
            rowsWritten := s.rowsWritten + (R g.1).length
            completed := insertStr g.1 s.completed } := by
        rw [uniStep_not_skip O comp0 fail0 s g hnc hnf, hre, hrc,
          isEmpty_false_of_ne (R g.1) hne, if_neg Bool.false_ne_true, hf]
        rfl
      have hres := ih { s with
            retries := s.retries + 0
            log := s.log ++ [g.1]
            ndjson := s.ndjson ++ R g.1
            rowsWritten := s.rowsWritten + (R g.1).length
            completed := insertStr g.1 s.completed }
        (fun q hq => hO q (List.mem_cons_of_mem g hq))
        (fun q hq => hfresh q (List.mem_cons_of_mem g hq)) hf
      have hloop : unified_engine_loop O comp0 fail0 s (g :: rest) =
          unified_engine_loop O comp0 fail0 (uniStep O comp0 fail0 s g) rest := rfl
      rw [hloop, hstep]
      refine ⟨?_, ?_, hres.2.2.1, hres.2.2.2⟩
      · rw [hres.1]
        rfl
      · rw [hres.2.1]
        simp

theorem uniLoop_empty_group {ρ : Type} (O : String → Nat → Except PyErr (List ρ))
    (g : String) (hg : ∀ a, O g a = .ok ([] : List ρ)) (comp0 fail0 : List String) :
    ∀ (gs : List ExpGroup) (s : UniSt ρ),
      (gs.map (fun e => e.1)).Nodup →
      (∀ x ∈ s.completed, x ∉ gs.map (fun e => e.1)) →
      g ∉ s.completed → s.completed.Nodup →
      g ∉ (unified_engine_loop O comp0 fail0 s gs).completed ∧
      (unified_engine_loop O comp0 fail0 s gs).completed.Nodup ∧
      (∀ x ∈ (unified_engine_loop O comp0 fail0 s gs).completed,
        x ∈ s.completed ∨ x ∈ gs.map (fun e => e.1)) ∧
      ((g ∈ gs.map (fun e => e.1) ∧ g ∉ comp0 ∧ g ∉ fail0) →
        g ∈ (unified_engine_loop O comp0 fail0 s gs).failed) := by
  intro gs
  induction gs with
  | nil =>
      intro s _ _ hgc hnd
      exact ⟨hgc, hnd, fun x hx => Or.inl hx, fun hm => absurd hm.1 (by simp)⟩
  | cons q rest ih =>
      intro s hndn hdis hgc hnd
      rw [List.map_cons] at hndn
      obtain ⟨hq1, hndr⟩ := List.nodup_cons.mp hndn
      have hloop : unified_engine_loop O comp0 fail0 s (q :: rest) =
          unified_engine_loop O comp0 fail0 (uniStep O comp0 fail0 s q) rest := rfl
      by_cases hskip : q.1 ∈ comp0 ∨ q.1 ∈ fail0
      · rw [hloop, uniStep_skip O comp0 fail0 s q hskip]
        obtain ⟨ih1, ih2, ih3, ih4⟩ := ih s hndr
          (fun x hx hm => hdis x hx (List.mem_cons_of_mem _ hm)) hgc hnd
        refine ⟨ih1, ih2, ?_, ?_⟩
        · intro x hx
          rcases ih3 x hx with h | h
          · exact Or.inl h
          · exact Or.inr (List.mem_cons_of_mem _ h)
        · rintro ⟨hm, hc0, hf0⟩
          rcases List.mem_cons.mp hm with he | he
          · exfalso
            rcases hskip with hs | hs
            · exact hc0 (he ▸ hs)
            · exact hf0 (he ▸ hs)
          · exact ih4 ⟨he, hc0, hf0⟩
      · push_neg at hskip
        by_cases hqg : q.1 = g
        · have hro : retry_build_rows (O q.1) = (([], 0), []) := by
            rw [hqg]
            exact retry_build_ok (O g) [] (hg 0)
          have hstep : uniStep O comp0 fail0 s q =
              { s with
                retries := s.retries + 0
                log := s.log ++ [q.1]
                failed := insertStr q.1 s.failed } := by
            rw [uniStep_not_skip O comp0 fail0 s q hskip.1 hskip.2, hro]
            rfl
          rw [hloop, hstep]
          obtain ⟨ih1, ih2, ih3, ih4⟩ := ih { s with
                retries := s.retries + 0
                log := s.log ++ [q.1]
                failed := insertStr q.1 s.failed } hndr
            (fun x hx hm => hdis x hx (List.mem_cons_of_mem _ hm)) hgc hnd
          refine ⟨ih1, ih2, ?_, ?_⟩
          · intro x hx
            rcases ih3 x hx with h | h
            · exact Or.inl h
            · exact Or.inr (List.mem_cons_of_mem _ h)
          · intro _
            refine uniLoop_failed_persist2 O comp0 fail0 g rest _ ?_ ?_
            · exact (mem_insertStr q.1 g s.failed).mpr (Or.inl hqg.symm)
            · rw [← hqg] at *
              exact hq1
        · rw [hloop, uniStep_not_skip O comp0 fail0 s q hskip.1 hskip.2]
          have hqs : q.1 ∉ s.completed := fun hm =>
            hdis q.1 hm (by simp)
          by_cases he : (retry_build_rows (O q.1)).1.1.isEmpty
          · rw [if_pos he]
            obtain ⟨ih1, ih2, ih3, ih4⟩ := ih { s with
                  retries := s.retries + (retry_build_rows (O q.1)).1.2
                  log := s.log ++ [q.1]
                  failed := insertStr q.1 s.failed } hndr
              (fun x hx hm => hdis x hx (List.mem_cons_of_mem _ hm)) hgc hnd
            refine ⟨ih1, ih2, ?_, ?_⟩
            · intro x hx
              rcases ih3 x hx with h | h
              · exact Or.inl h
              · exact Or.inr (List.mem_cons_of_mem _ h)
            · rintro ⟨hm, hc0, hf0⟩
              rcases List.mem_cons.mp hm with hee | hee
              · exact absurd hee.symm hqg
              · exact ih4 ⟨hee, hc0, hf0⟩
          · rw [if_neg he]
            obtain ⟨ih1, ih2, ih3, ih4⟩ := ih { s with
                  retries := s.retries + (retry_build_rows (O q.1)).1.2
                  log := s.log ++ [q.1]
                  ndjson := s.ndjson ++ (retry_build_rows (O q.1)).1.1
                  rowsWritten := s.rowsWritten + (retry_build_rows (O q.1)).1.1.length
                  completed := insertStr q.1 s.completed
                  failed := (if s.failed.contains q.1 then removeStr q.1 s.failed
                    else s.failed) } hndr
              (by
                intro x hx hm
                rcases (mem_insertStr q.1 x s.completed).mp hx with hx' | hx'
                · exact hq1 (hx' ▸ hm)
                · exact hdis x hx' (List.mem_cons_of_mem _ hm))
              (by
                intro hm
                rcases (mem_insertStr q.1 g s.completed).mp hm with hx' | hx'
                · exact hqg hx'.symm
                · exact hgc hx')
              (nodup_insertStr q.1 s.completed hnd hqs)
            refine ⟨ih1, ih2, ?_, ?_⟩
            · intro x hx
              rcases ih3 x hx with h | h
              · rcases (mem_insertStr q.1 x s.completed).mp h with hx' | hx'
                · exact Or.inr (by simp [hx'])
                · exact Or.inl hx'
              · exact Or.inr (List.mem_cons_of_mem _ h)
            · rintro ⟨hm, hc0, hf0⟩
              rcases List.mem_cons.mp hm with hee | hee
              · exact absurd hee.symm hqg
              · exact ih4 ⟨hee, hc0, hf0⟩

theorem pagesLoop_empty {π : Type} (probe : String → Except PyErr (List π)) :
    ∀ (names : List String),
      (∀ nm ∈ names, probe nm = .ok [] ∨ ∃ st, probe nm = .error (.api st)) →
      pagesLoop probe names = .ok [] := by
  intro names
  induction names with
  | nil => intro _; rfl
  | cons nm rest ih =>
      intro h
      rcases h nm (List.mem_cons_self nm rest) with hok | ⟨st, herr⟩
      · show pagesLoop probe (nm :: rest) = .ok []
        rw [pagesLoop, hok]
        simp only [List.isEmpty_nil, if_true]
        exact ih (fun x hx => h x (List.mem_cons_of_mem nm hx))
      · show pagesLoop probe (nm :: rest) = .ok []
        rw [pagesLoop, herr]
        exact ih (fun x hx => h x (List.mem_cons_of_mem nm hx))

theorem uniStep_total {ρ : Type} (O : String → Nat → Except PyErr (List ρ))
    (comp0 fail0 : List String) (s : UniSt ρ) (g : ExpGroup) :
    (uniStep O comp0 fail0 s g).total = s.total := by
  by_cases h1 : g.1 ∈ comp0 ∨ g.1 ∈ fail0
  · rw [uniStep_skip O comp0 fail0 s g h1]
  · push_neg at h1
    rw [uniStep_not_skip O comp0 fail0 s g h1.1 h1.2]
    by_cases he : (retry_build_rows (O g.1)).1.1.isEmpty
    · rw [if_pos he]
    · rw [if_neg he]

theorem uniLoop_total {ρ : Type} (O : String → Nat → Except PyErr (List ρ))
    (comp0 fail0 : List String) :
    ∀ (gs : List ExpGroup) (s : UniSt ρ),
      (unified_engine_loop O comp0 fail0 s gs).total = s.total := by
  intro gs
  induction gs with
  | nil => intro s; rfl
  | cons g rest ih =>
      intro s
      show (unified_engine_loop O comp0 fail0 (uniStep O comp0 fail0 s g) rest).total = s.total
      rw [ih, uniStep_total]

/-- C10: in the unified-table engine a group whose every canonical-name probe
legitimately returns zero pages is indistinguishable from one whose retries
were exhausted: `_pages_for_group` returns the empty page list, so
`_retry_build_rows` returns an empty row list with zero retries — exactly as
it does (with two retries) after exhaustion — the engine marks the group
failed and never completed, and since completed can then never cover all
groups, the done-equals-total check fails and the final unified CSV is never
assembled. -/
theorem C10_empty_group_failure {π ρ : Type} (probe : String → Except PyErr (List π))
    (display : String) (canon : List String)
    (O : String → Nat → Except PyErr (List ρ)) (groups : List ExpGroup) (g : String)
    (hprobe : ∀ nm ∈ canon, probe nm = .ok [] ∨ ∃ st, probe nm = .error (.api st))
    (hG : ∀ a, O g a = .ok ([] : List ρ))
    (hmem : g ∈ (sortGroups groups).map (fun e => e.1))
    (hnd : ((sortGroups groups).map (fun e => e.1)).Nodup) :
    pages_for_group probe display canon = .ok [] ∧
    retry_build_rows (fun _ => (.ok [] : Except PyErr (List ρ))) = (([], 0), []) ∧
    (retry_build_rows (fun _ => (.error (.api (some 503)) : Except PyErr (List ρ)))).1.1
      = [] ∧
    g ∈ (unified_export_engine O
      (uniFresh ρ (sortGroups groups).length) groups).1.failed ∧
    g ∉ (unified_export_engine O
      (uniFresh ρ (sortGroups groups).length) groups).1.completed ∧
    (unified_export_engine O (uniFresh ρ (sortGroups groups).length) groups).2 = none := by
  have hpages : pages_for_group probe display canon = .ok [] := by
    unfold pages_for_group
    refine pagesLoop_empty probe _ ?_
    intro nm hm
    exact hprobe nm ((mem_pySortBy _ nm canon).mp hm)
  obtain ⟨hn1, hn2, hn3, hn4⟩ := uniLoop_empty_group O g hG [] []
    (sortGroups groups) (uniFresh ρ (sortGroups groups).length) hnd
    (by intro x hx; simp [uniFresh] at hx) (by simp [uniFresh]) (by simp [uniFresh])
  have hfail : g ∈ (unified_engine_loop O [] []
      (uniFresh ρ (sortGroups groups).length) (sortGroups groups)).failed :=
    hn4 ⟨hmem, by simp, by simp⟩
  have hloopform : (unified_export_engine O
      (uniFresh ρ (sortGroups groups).length) groups).1 =
      unified_engine_loop O [] [] (uniFresh ρ (sortGroups groups).length)
        (sortGroups groups) := rfl
  refine ⟨hpages, rfl, rfl, ?_, ?_, ?_⟩
  · rw [hloopform]; exact hfail
  · rw [hloopform]; exact hn1
  · have hlen : (unified_engine_loop O [] []
        (uniFresh ρ (sortGroups groups).length) (sortGroups groups)).completed.length <
        (sortGroups groups).length := by
      set out := unified_engine_loop O [] []
        (uniFresh ρ (sortGroups groups).length) (sortGroups groups) with hout
      have hsub : out.completed.toFinset ⊆
          ((sortGroups groups).map (fun e => e.1)).toFinset.erase g := by
        intro x hx
        rw [List.mem_toFinset] at hx
        rcases hn3 x hx with hxc | hxc
        · simp [uniFresh] at hxc
        · refine Finset.mem_erase.mpr ⟨?_, List.mem_toFinset.mpr hxc⟩
          intro he
          exact hn1 (he ▸ hx)
      have hcard1 : out.completed.length = out.completed.toFinset.card :=
        (List.toFinset_card_of_nodup hn2).symm
      have hgmem : g ∈ ((sortGroups groups).map (fun e => e.1)).toFinset :=
        List.mem_toFinset.mpr hmem
      have hcard2 : (((sortGroups groups).map (fun e => e.1)).toFinset.erase g).card =
          ((sortGroups groups).map (fun e => e.1)).toFinset.card - 1 :=
        Finset.card_erase_of_mem hgmem
      have hcard3 : ((sortGroups groups).map (fun e => e.1)).toFinset.card =
          ((sortGroups groups).map (fun e => e.1)).length :=
        List.toFinset_card_of_nodup hnd
      have hcard4 : ((sortGroups groups).map (fun e => e.1)).length =
          (sortGroups groups).length := List.length_map _ _
      have hle := Finset.card_le_card hsub
      have hpos : 0 < ((sortGroups groups).map (fun e => e.1)).toFinset.card :=
        Finset.card_pos.mpr ⟨g, hgmem⟩
      omega
    have htot : (unified_engine_loop O [] []
        (uniFresh ρ (sortGroups groups).length) (sortGroups groups)).total =
        (sortGroups groups).length := uniLoop_total O [] [] _ _
    show (if (unified_engine_loop O [] [] (uniFresh ρ (sortGroups groups).length)
        (sortGroups groups)).completed.length = (unified_engine_loop O [] []
        (uniFresh ρ (sortGroups groups).length) (sortGroups groups)).total then _ else none)
      = none
    rw [if_neg]
    rw [htot]
    omega

/-- C10 witness: a run containing the genuinely empty group e — every probe
returns zero pages — never assembles the unified CSV. -/
theorem C10_empty_group_failure_witness :
    pages_for_group (fun _ => (.ok [] : Except PyErr (List Nat))) "x" ["x", "y"] = .ok [] ∧
    "e" ∈ (unified_export_engine
      (fun n _ => if n = "e" then (.ok [] : Except PyErr (List Nat)) else .ok [0])
      (uniFresh Nat (sortGroups [("e", 1, []), ("b", 2, [])]).length)
      [("e", 1, []), ("b", 2, [])]).1.failed ∧
    (unified_export_engine
      (fun n _ => if n = "e" then (.ok [] : Except PyErr (List Nat)) else .ok [0])
      (uniFresh Nat (sortGroups [("e", 1, []), ("b", 2, [])]).length)
      [("e", 1, []), ("b", 2, [])]).2 = none := by
  have h := C10_empty_group_failure (fun _ => (.ok [] : Except PyErr (List Nat))) "x"
    ["x", "y"]
    (fun n _ => if n = "e" then (.ok [] : Except PyErr (List Nat)) else .ok [0])
    [("e", 1, []), ("b", 2, [])] "e"
    (fun nm _ => Or.inl rfl) (fun a => rfl) (by decide) (by decide)
  exact ⟨h.1, h.2.2.2.1, h.2.2.2.2.2⟩

/-- C6: the claim is false on the code for the ZIP engine.  On resume with a
checkpoint whose failed set holds g (and g not completed), `export_engine`
silently retries g — its only skip test is membership in completed — and when
the retry succeeds it even moves g from failed to completed; nothing
surfaces g as needing manual retry. -/
theorem C6_counterexample :
    (export_engine (fun _ _ => (.ok 0 : Except PyErr Nat))
      ⟨[], ["g"], 0, 1, [], []⟩ [("g", 1, [])]).1.log = ["g"] ∧
    (export_engine (fun _ _ => (.ok 0 : Except PyErr Nat))
      ⟨[], ["g"], 0, 1, [], []⟩ [("g", 1, [])]).1.completed = ["g"] ∧
    (export_engine (fun _ _ => (.ok 0 : Except PyErr Nat))
      ⟨[], ["g"], 0, 1, [], []⟩ [("g", 1, [])]).1.failed = [] := by
  refine ⟨by decide, by decide, by decide⟩

/-- C6 (amended): on resume both engines skip every group already in the
completed set (the row builder is never invoked for it).  The unified engine
also skips groups in its failed snapshot — they are surfaced as errors, never
silently retried, and remain in the failed set.  The ZIP engine, however,
checks only the completed set: a failed, not-yet-completed group IS silently
retried by `export_engine` on resume. -/
theorem C6_resume_semantics {β ρ : Type} (Oz : String → Nat → Except PyErr β)
    (Ou : String → Nat → Except PyErr (List ρ)) (s : ZipSt β) (u : UniSt ρ)
    (groups : List ExpGroup) (g : String) :
    (g ∈ s.completed →
      ∃ δ, (export_engine Oz s groups).1.log = s.log ++ δ ∧ g ∉ δ) ∧
    (g ∈ u.completed →
      ∃ δ, (unified_export_engine Ou u groups).1.log = u.log ++ δ ∧ g ∉ δ) ∧
    (g ∈ u.failed →
      (∃ δ, (unified_export_engine Ou u groups).1.log = u.log ++ δ ∧ g ∉ δ) ∧
      g ∈ (unified_export_engine Ou u groups).1.failed) ∧
    (g ∈ s.failed → g ∉ s.completed → g ∈ (sortGroups groups).map (fun e => e.1) →
      ∃ δ, (export_engine Oz s groups).1.log = s.log ++ δ ∧ g ∈ δ) := by
  have hz : (export_engine Oz s groups).1 = export_engine_loop Oz s (sortGroups groups) :=
    rfl
  have hu : (unified_export_engine Ou u groups).1 =
      unified_engine_loop Ou u.completed u.failed u (sortGroups groups) := rfl
  refine ⟨?_, ?_, ?_, ?_⟩
  · intro hg
    obtain ⟨δ, hlog, hδ⟩ := zipLoop_log Oz (sortGroups groups) s
    exact ⟨δ, by rw [hz, hlog], fun hm => hδ g hm hg⟩
  · intro hg
    obtain ⟨δ, hlog, hδ⟩ := uniLoop_log Ou u.completed u.failed (sortGroups groups) u
    exact ⟨δ, by rw [hu, hlog], fun hm => (hδ g hm).1 hg⟩
  · intro hg
    constructor
    · obtain ⟨δ, hlog, hδ⟩ := uniLoop_log Ou u.completed u.failed (sortGroups groups) u
      exact ⟨δ, by rw [hu, hlog], fun hm => (hδ g hm).2 hg⟩
    · rw [hu]
      exact uniLoop_failed_persist Ou u.completed u.failed g (sortGroups groups) u hg hg
  · intro _ hgc hgm
    obtain ⟨δ, hlog, hδ⟩ := zipLoop_failed_retried Oz g (sortGroups groups) s hgc hgm
    exact ⟨δ, by rw [hz, hlog], hδ⟩

/-- C6 witness: the amended statement at concrete states — the unified engine
leaves a failed group failed without invoking its builder; the ZIP engine
retries it. -/
theorem C6_resume_semantics_witness :
    ((∃ δ, (unified_export_engine (fun _ _ => (.ok [0] : Except PyErr (List Nat)))
        ⟨["c"], ["g"], 0, 2, 0, [], []⟩ [("g", 1, []), ("c", 1, [])]).1.log = [] ++ δ ∧
        "g" ∉ δ) ∧
      "g" ∈ (unified_export_engine (fun _ _ => (.ok [0] : Except PyErr (List Nat)))
        ⟨["c"], ["g"], 0, 2, 0, [], []⟩ [("g", 1, []), ("c", 1, [])]).1.failed) ∧
    (∃ δ, (export_engine (fun _ _ => (.ok 0 : Except PyErr Nat))
        ⟨[], ["g"], 0, 1, [], []⟩ [("g", 1, [])]).1.log = [] ++ δ ∧ "g" ∈ δ) := by
  constructor
  · exact (C6_resume_semantics (fun _ _ => (.ok 0 : Except PyErr Nat))
      (fun _ _ => (.ok [0] : Except PyErr (List Nat)))
      ⟨[], ["g"], 0, 1, [], []⟩ ⟨["c"], ["g"], 0, 2, 0, [], []⟩
      [("g", 1, []), ("c", 1, [])] "g").2.2.1 (by decide)
  · exact (C6_resume_semantics (fun _ _ => (.ok 0 : Except PyErr Nat))
      (fun _ _ => (.ok [0] : Except PyErr (List Nat)))
      ⟨[], ["g"], 0, 1, [], []⟩ ⟨["c"], ["g"], 0, 2, 0, [], []⟩
      [("g", 1, [])] "g").2.2.2 (by decide) (by decide) (by decide)

theorem zipLoop_append {β : Type} (O : String → Nat → Except PyErr β) (s : ZipSt β)
    (xs ys : List ExpGroup) :
    export_engine_loop O s (xs ++ ys) =
      export_engine_loop O (export_engine_loop O s xs) ys :=
  List.foldl_append _ _ _ _

theorem uniLoop_append {ρ : Type} (O : String → Nat → Except PyErr (List ρ))
    (comp0 fail0 : List String) (s : UniSt ρ) (xs ys : List ExpGroup) :
    unified_engine_loop O comp0 fail0 s (xs ++ ys) =
      unified_engine_loop O comp0 fail0
        (unified_engine_loop O comp0 fail0 s xs) ys :=
  List.foldl_append _ _ _ _

theorem zipLoop_split {β : Type} (O : String → Nat → Except PyErr β) (s : ZipSt β)
    (gs : List ExpGroup) (k : Nat) :
    export_engine_loop O s gs =
      export_engine_loop O (export_engine_loop O s (gs.take k)) (gs.drop k) := by
  conv_lhs => rw [← List.take_append_drop k gs]
  exact zipLoop_append O s _ _

theorem uniLoop_split {ρ : Type} (O : String → Nat → Except PyErr (List ρ))
    (comp0 fail0 : List String) (s : UniSt ρ) (gs : List ExpGroup) (k : Nat) :
    unified_engine_loop O comp0 fail0 s gs =
      unified_engine_loop O comp0 fail0
        (unified_engine_loop O comp0 fail0 s (gs.take k)) (gs.drop k) := by
  conv_lhs => rw [← List.take_append_drop k gs]
  exact uniLoop_append O comp0 fail0 s _ _

/-- C1: with deterministic input data (every group's rows build successfully
and, in unified mode, non-emptily on the first attempt), running either
engine to completion in one uninterrupted pass and running it interrupted
after any prefix of k groups (at a group boundary) and then resumed from that
checkpoint state produce exactly the same final state and final artifact —
and the builder-invocation log of the full run lists every group exactly
once, in order: no group is processed twice, none is skipped. -/
theorem C1_resume_idempotent {β ρ : Type} (Oz : String → Nat → Except PyErr β)
    (Rz : String → β) (Ou : String → Nat → Except PyErr (List ρ)) (Ru : String → List ρ)
    (groups : List ExpGroup) (k : Nat)
    (hnd : ((sortGroups groups).map (fun e => e.1)).Nodup)
    (hz : ∀ gp ∈ sortGroups groups, Oz gp.1 0 = .ok (Rz gp.1))
    (hu : ∀ gp ∈ sortGroups groups, Ou gp.1 0 = .ok (Ru gp.1) ∧ Ru gp.1 ≠ []) :
    export_engine Oz
        (export_engine_loop Oz (zipFresh β (sortGroups groups).length)
          ((sortGroups groups).take k)) groups =
      export_engine Oz (zipFresh β (sortGroups groups).length) groups ∧
    (export_engine Oz (zipFresh β (sortGroups groups).length) groups).2 ≠ none ∧
    (export_engine Oz (zipFresh β (sortGroups groups).length) groups).1.log =
      (sortGroups groups).map (fun e => e.1) ∧
    unified_export_engine Ou
        (unified_engine_loop Ou [] [] (uniFresh ρ (sortGroups groups).length)
          ((sortGroups groups).take k)) groups =
      unified_export_engine Ou (uniFresh ρ (sortGroups groups).length) groups ∧
    (unified_export_engine Ou (uniFresh ρ (sortGroups groups).length) groups).2 ≠ none ∧
    (unified_export_engine Ou (uniFresh ρ (sortGroups groups).length) groups).1.log =
      (sortGroups groups).map (fun e => e.1) := by
  have hsplit : (sortGroups groups).take k ++ (sortGroups groups).drop k =
      sortGroups groups := List.take_append_drop k _
  have hmaptake : ((sortGroups groups).take k).map (fun e => (e : ExpGroup).1) =
      ((sortGroups groups).map (fun e => e.1)).take k := List.map_take _ _ _
  have hndtake : (((sortGroups groups).take k).map (fun e => (e : ExpGroup).1)).Nodup := by
    rw [hmaptake]
    exact (List.take_sublist k _).nodup hnd
  have htksub : ∀ gp ∈ (sortGroups groups).take k, gp ∈ sortGroups groups :=
    fun gp hgp => List.take_subset k _ hgp
  have hdisj : ∀ x ∈ ((sortGroups groups).drop k).map (fun e => (e : ExpGroup).1),
      x ∉ ((sortGroups groups).take k).map (fun e => (e : ExpGroup).1) := by
    intro x hxd hxt
    have hmapdrop : ((sortGroups groups).drop k).map (fun e => (e : ExpGroup).1) =
        ((sortGroups groups).map (fun e => e.1)).drop k := List.map_drop _ _ _
    rw [hmapdrop] at hxd
    rw [hmaptake] at hxt
    have := hnd
    rw [← List.take_append_drop k ((sortGroups groups).map (fun e => e.1))] at this
    have hdd := (List.nodup_append.mp this).2.2
    exact hdd hxt hxd
  -- ZIP engine
  obtain ⟨hzc, hzl, hzf, hzt⟩ := zipLoop_success Oz Rz ((sortGroups groups).take k)
    (zipFresh β (sortGroups groups).length)
    (fun gp hgp => hz gp (htksub gp hgp)) hndtake (fun gp _ => by simp [zipFresh]) rfl
  have hzskip : export_engine_loop Oz
      (export_engine_loop Oz (zipFresh β (sortGroups groups).length)
        ((sortGroups groups).take k)) ((sortGroups groups).take k) =
      export_engine_loop Oz (zipFresh β (sortGroups groups).length)
        ((sortGroups groups).take k) := by
    refine zipLoop_skip Oz _ _ ?_
    intro gp hgp
    rw [hzc, mem_insAllStr]
    exact Or.inr (List.mem_map.mpr ⟨gp, hgp, rfl⟩)
  have hzmain : export_engine_loop Oz
      (export_engine_loop Oz (zipFresh β (sortGroups groups).length)
        ((sortGroups groups).take k)) (sortGroups groups) =
      export_engine_loop Oz (zipFresh β (sortGroups groups).length) (sortGroups groups)
      := by
    have h1 := zipLoop_split Oz
      (export_engine_loop Oz (zipFresh β (sortGroups groups).length)
        ((sortGroups groups).take k)) (sortGroups groups) k
    have h2 := zipLoop_split Oz (zipFresh β (sortGroups groups).length)
      (sortGroups groups) k
    rw [h1, hzskip, h2]
  have hzeq : export_engine Oz
      (export_engine_loop Oz (zipFresh β (sortGroups groups).length)
        ((sortGroups groups).take k)) groups =
      export_engine Oz (zipFresh β (sortGroups groups).length) groups := by
    unfold export_engine
    rw [hzmain]
  obtain ⟨hoc, hol, hof, hot⟩ := zipLoop_success Oz Rz (sortGroups groups)
    (zipFresh β (sortGroups groups).length) hz hnd (fun gp _ => by simp [zipFresh]) rfl
  have hocl : (export_engine_loop Oz (zipFresh β (sortGroups groups).length)
      (sortGroups groups)).completed.length = (sortGroups groups).length := by
    rw [hoc]
    have := length_insAllStr [] ((sortGroups groups).map (fun e => e.1)) hnd (by simp)
    simpa using this
  have hzart : (export_engine Oz (zipFresh β (sortGroups groups).length) groups).2 ≠
      none := by
    have hdef : (export_engine Oz (zipFresh β (sortGroups groups).length) groups).2 =
        (if (export_engine_loop Oz (zipFresh β (sortGroups groups).length)
              (sortGroups groups)).completed.length =
            (export_engine_loop Oz (zipFresh β (sortGroups groups).length)
              (sortGroups groups)).total
         then some (zipArtifact (export_engine_loop Oz
              (zipFresh β (sortGroups groups).length) (sortGroups groups)))
         else none) := rfl
    rw [hdef, if_pos]
    · exact Option.some_ne_none _
    · rw [hocl, hot]
      rfl
  -- unified engine
  obtain ⟨huc, hul, huf, hut⟩ := uniLoop_success Ou Ru [] [] ((sortGroups groups).take k)
    (uniFresh ρ (sortGroups groups).length)
    (fun gp hgp => hu gp (htksub gp hgp)) (fun gp _ => by simp) rfl
  have huskip : unified_engine_loop Ou
      (unified_engine_loop Ou [] [] (uniFresh ρ (sortGroups groups).length)
        ((sortGroups groups).take k)).completed
      (unified_engine_loop Ou [] [] (uniFresh ρ (sortGroups groups).length)
        ((sortGroups groups).take k)).failed
      (unified_engine_loop Ou [] [] (uniFresh ρ (sortGroups groups).length)
        ((sortGroups groups).take k)) ((sortGroups groups).take k) =
      unified_engine_loop Ou [] [] (uniFresh ρ (sortGroups groups).length)
        ((sortGroups groups).take k) := by
    refine uniLoop_skip Ou _ _ _ _ ?_
    intro gp hgp
    left
    rw [huc, mem_insAllStr]
    exact Or.inr (List.mem_map.mpr ⟨gp, hgp, rfl⟩)
  have hucongr : unified_engine_loop Ou
      (unified_engine_loop Ou [] [] (uniFresh ρ (sortGroups groups).length)
        ((sortGroups groups).take k)).completed
      (unified_engine_loop Ou [] [] (uniFresh ρ (sortGroups groups).length)
        ((sortGroups groups).take k)).failed
      (unified_engine_loop Ou [] [] (uniFresh ρ (sortGroups groups).length)
        ((sortGroups groups).take k)) ((sortGroups groups).drop k) =
      unified_engine_loop Ou [] []
        (unified_engine_loop Ou [] [] (uniFresh ρ (sortGroups groups).length)
          ((sortGroups groups).take k)) ((sortGroups groups).drop k) := by
    refine uniLoop_congr Ou _ _ [] [] _ _ ?_
    intro gp hgp
    refine ⟨?_, ?_, by simp, by simp⟩
    · rw [huc, mem_insAllStr]
      rintro (h | h)
      · simp [uniFresh] at h
      · exact hdisj gp.1 (List.mem_map.mpr ⟨gp, hgp, rfl⟩) h
    · rw [huf]
      simp
  have humain : unified_engine_loop Ou
      (unified_engine_loop Ou [] [] (uniFresh ρ (sortGroups groups).length)
        ((sortGroups groups).take k)).completed
      (unified_engine_loop Ou [] [] (uniFresh ρ (sortGroups groups).length)
        ((sortGroups groups).take k)).failed
      (unified_engine_loop Ou [] [] (uniFresh ρ (sortGroups groups).length)
        ((sortGroups groups).take k)) (sortGroups groups) =
      unified_engine_loop Ou [] [] (uniFresh ρ (sortGroups groups).length)
        (sortGroups groups) := by
    have h1 := uniLoop_split Ou
      (unified_engine_loop Ou [] [] (uniFresh ρ (sortGroups groups).length)
        ((sortGroups groups).take k)).completed
      (unified_engine_loop Ou [] [] (uniFresh ρ (sortGroups groups).length)
        ((sortGroups groups).take k)).failed
      (unified_engine_loop Ou [] [] (uniFresh ρ (sortGroups groups).length)
        ((sortGroups groups).take k)) (sortGroups groups) k
    have h2 := uniLoop_split Ou [] [] (uniFresh ρ (sortGroups groups).length)
      (sortGroups groups) k
    rw [h1, huskip, hucongr, h2]
  have hueq : unified_export_engine Ou
      (unified_engine_loop Ou [] [] (uniFresh ρ (sortGroups groups).length)
        ((sortGroups groups).take k)) groups =
      unified_export_engine Ou (uniFresh ρ (sortGroups groups).length) groups := by
    unfold unified_export_engine
    rw [humain]
    rfl
  obtain ⟨huoc, huol, huof, huot⟩ := uniLoop_success Ou Ru [] [] (sortGroups groups)
    (uniFresh ρ (sortGroups groups).length) hu (fun gp _ => by simp) rfl
  have huocl : (unified_engine_loop Ou [] [] (uniFresh ρ (sortGroups groups).length)
      (sortGroups groups)).completed.length = (sortGroups groups).length := by
    rw [huoc]
    have := length_insAllStr [] ((sortGroups groups).map (fun e => e.1)) hnd (by simp)
    simpa using this
  have huart : (unified_export_engine Ou (uniFresh ρ (sortGroups groups).length)
      groups).2 ≠ none := by
    have hdef : (unified_export_engine Ou (uniFresh ρ (sortGroups groups).length)
        groups).2 =
        (if (unified_engine_loop Ou [] [] (uniFresh ρ (sortGroups groups).length)
              (sortGroups groups)).completed.length =
            (unified_engine_loop Ou [] [] (uniFresh ρ (sortGroups groups).length)
              (sortGroups groups)).total
         then some (unified_engine_loop Ou [] [] (uniFresh ρ (sortGroups groups).length)
              (sortGroups groups)).ndjson
         else none) := rfl
    rw [hdef, if_pos]
    · exact Option.some_ne_none _
    · rw [huocl, huot]
      rfl
  refine ⟨hzeq, hzart, ?_, hueq, huart, ?_⟩
  · show (export_engine_loop Oz (zipFresh β (sortGroups groups).length)
      (sortGroups groups)).log = _
    rw [hol]
    rfl
  · show (unified_engine_loop Ou [] [] (uniFresh ρ (sortGroups groups).length)
      (sortGroups groups)).log = _
    rw [huol]
    rfl

/-- C1 witness: a two-group run interrupted after one group and resumed
matches the uninterrupted run, for both engines, with every group built
exactly once. -/
theorem C1_resume_idempotent_witness :
    export_engine (fun n _ => (.ok n.length : Except PyErr Nat))
        (export_engine_loop (fun n _ => (.ok n.length : Except PyErr Nat))
          (zipFresh Nat (sortGroups [("b", 2, []), ("a", 1, [])]).length)
          ((sortGroups [("b", 2, []), ("a", 1, [])]).take 1)) [("b", 2, []), ("a", 1, [])] =
      export_engine (fun n _ => (.ok n.length : Except PyErr Nat))
        (zipFresh Nat (sortGroups [("b", 2, []), ("a", 1, [])]).length)
        [("b", 2, []), ("a", 1, [])] ∧
    (export_engine (fun n _ => (.ok n.length : Except PyErr Nat))
        (zipFresh Nat (sortGroups [("b", 2, []), ("a", 1, [])]).length)
        [("b", 2, []), ("a", 1, [])]).1.log =
      (sortGroups [("b", 2, []), ("a", 1, [])]).map (fun e => e.1) ∧
    unified_export_engine (fun n _ => (.ok [n.length] : Except PyErr (List Nat)))
        (unified_engine_loop (fun n _ => (.ok [n.length] : Except PyErr (List Nat))) [] []
          (uniFresh Nat (sortGroups [("b", 2, []), ("a", 1, [])]).length)
          ((sortGroups [("b", 2, []), ("a", 1, [])]).take 1)) [("b", 2, []), ("a", 1, [])] =
      unified_export_engine (fun n _ => (.ok [n.length] : Except PyErr (List Nat)))
        (uniFresh Nat (sortGroups [("b", 2, []), ("a", 1, [])]).length)
        [("b", 2, []), ("a", 1, [])] := by
  have h := C1_resume_idempotent (fun n _ => (.ok n.length : Except PyErr Nat))
    (fun n => n.length) (fun n _ => (.ok [n.length] : Except PyErr (List Nat)))
    (fun n => [n.length]) [("b", 2, []), ("a", 1, [])] 1
    (by decide)
    (by intro gp _; rfl)
    (by intro gp _; exact ⟨rfl, by simp⟩)
  exact ⟨h.1, h.2.2.1, h.2.2.2.1⟩
